import Mathlib

/-! # User repository of go-serverless-yt: a verification development

Shallow embedding of `src/user/user.go` (package `user`): the `User` record, the
error messages, and the operations `FetchUser`, `CreateUser`, `UpdateUser` and
`DeleteUser`, together with models of what they call:

* `encoding/json` (`json.Unmarshal` into a `User`), as an executable decoder
  over the characters of the request body;
* `dynamodbattribute` (`MarshalMap`, `UnmarshalMap`) for the `User` struct;
* the client interface `dynamodbiface.DynamoDBAPI`, as a record of functions
  over an arbitrary store state, and an in-memory table store implementing it;
* `validators.IsEmailValid`, which the operations take as a parameter.

Every operation threads a `Sys`: the state of the store and the log of the
client calls made so far.
-/

set_option autoImplicit false

namespace user

/-! ## Error messages (the `var` block of user.go) -/

def ErrorFailedToUnmarshalRecord : String := "failed to unmarshal record"
def ErrorFailedToFetchRecord : String := "failed to fetch record"
def ErrorInvalidUserData : String := "invalid user data"
def ErrorInvalidEmail : String := "invalid email"
def ErrorCouldNotMarshalItem : String := "could not marshal item"
def ErrorCouldNotDeleteItem : String := "could not delete item"
def ErrorCouldNotDynamoPutItem : String := "could not DynamoDB put item"
def ErrorUserAlreadyExists : String := "user already exists"
def ErrorUserDoNotExist : String := "user does not exist"

/-! ## Data model -/

/-- The `User` struct; its fields carry the tags `email`, `firstName`, `lastName`. -/
structure User where
  Email : String
  FirstName : String
  LastName : String
  deriving DecidableEq, Repr

/-- The zero value of `User` (`var u User`, `new(User)`). -/
def User.zero : User := ⟨"", "", ""⟩

/-- The three fields of `User`, in declaration order. -/
inductive Field where
  | email
  | firstName
  | lastName
  deriving DecidableEq, Repr

/-- The tag name of a field. -/
def Field.tag : Field → String
  | .email => "email"
  | .firstName => "firstName"
  | .lastName => "lastName"

/-- The fields in declaration order. -/
def Field.all : List Field := [.email, .firstName, .lastName]

/-- Assignment to one field of a user. -/
def User.set (u : User) : Field → String → User
  | .email, s => { u with Email := s }
  | .firstName, s => { u with FirstName := s }
  | .lastName, s => { u with LastName := s }

/-! ## Field lookup by name (shared by encoding/json and dynamodbattribute)

Both libraries look a key up among the struct's field names exactly first and,
failing that, under Unicode simple case folding (`EqualFold`). For names made
of ASCII letters the characters that fold to a letter are its two cases, plus
the Kelvin sign for `k` and the long s for `s`. -/

/-- The folding of a character, as far as ASCII letters can tell. -/
def foldChar (c : Char) : Char :=
  if 'A'.toNat ≤ c.toNat ∧ c.toNat ≤ 'Z'.toNat then Char.ofNat (c.toNat + 32)
  else if c.toNat = 0x212A then 'k'
  else if c.toNat = 0x017F then 's'
  else c

/-- Equality of a key and a field name under case folding. -/
def equalFold (name key : String) : Bool :=
  name.data.map foldChar == key.data.map foldChar

/-- The field a key denotes: the exact match, else the first folding match. -/
def fieldByName (key : String) : Option Field :=
  match Field.all.find? (fun f => f.tag == key) with
  | some f => some f
  | none => Field.all.find? (fun f => equalFold f.tag key)

end user

/-! ## encoding/json: `json.Unmarshal` into a `User`

The decoder first checks that the whole body is one JSON value (surrounded by
optional white space), then binds the members of an object to the fields of the
struct. The parser works on the characters of the body. -/

namespace json

open user

/-- A JSON value, with what a struct of string fields can observe of it: numbers
and arrays are checked for syntax and their contents dropped. -/
inductive Value where
  | null
  | bool (b : Bool)
  | num
  | str (s : String)
  | arr
  | obj (members : List (String × Value))

/-- The two ways `Unmarshal` fails: the body is not JSON, or a value has the
wrong type for its destination. -/
inductive Error where
  | syntaxError
  | unmarshalTypeError
  deriving DecidableEq, Repr

/-- The scanner refuses to nest arrays and objects deeper than this. -/
def maxNestingDepth : Nat := 10000

/-- White space between tokens. -/
def isSpace (c : Char) : Bool :=
  c = ' ' ∨ c = '\t' ∨ c = '\r' ∨ c = '\n'

/-- Drop leading white space. -/
def skipSpace : List Char → List Char
  | [] => []
  | c :: cs => if isSpace c then skipSpace cs else c :: cs

/-- The value of a hexadecimal digit. -/
def hexVal (c : Char) : Option Nat :=
  if '0'.toNat ≤ c.toNat ∧ c.toNat ≤ '9'.toNat then some (c.toNat - '0'.toNat)
  else if 'a'.toNat ≤ c.toNat ∧ c.toNat ≤ 'f'.toNat then some (c.toNat - 'a'.toNat + 10)
  else if 'A'.toNat ≤ c.toNat ∧ c.toNat ≤ 'F'.toNat then some (c.toNat - 'A'.toNat + 10)
  else none

/-- The four hexadecimal digits of a `\u` escape (the input starts after `\u`). -/
def getu4 : List Char → Option (Nat × List Char)
  | a :: b :: c :: d :: rest =>
    match hexVal a, hexVal b, hexVal c, hexVal d with
    | some x, some y, some z, some w => some (((x * 16 + y) * 16 + z) * 16 + w, rest)
    | _, _, _, _ => none
  | _ => none

/-- A whole `\uXXXX` escape at the head of the input, if there is one. -/
def escapeU : List Char → Option (Nat × List Char)
  | c :: e :: rest => if c = '\\' ∧ e = 'u' then getu4 rest else none
  | _ => none

/-- The rune U+FFFD, written for an escape that is half a surrogate pair. -/
def replacementChar : Char := Char.ofNat 0xFFFD

/-- Whether a code unit is a UTF-16 surrogate. -/
def isSurrogate (r : Nat) : Bool := 0xD800 ≤ r ∧ r < 0xE000

/-- The rune of a surrogate pair (`utf16.DecodeRune`), U+FFFD when the pair is
not a high surrogate followed by a low one. -/
def decodeRune (r1 r2 : Nat) : Char :=
  if 0xD800 ≤ r1 ∧ r1 < 0xDC00 ∧ 0xDC00 ≤ r2 ∧ r2 < 0xE000 then
    Char.ofNat ((r1 - 0xD800) * 0x400 + (r2 - 0xDC00) + 0x10000)
  else replacementChar

/-- The character a one-letter escape stands for. -/
def simpleEscape (c : Char) : Option Char :=
  if c = '"' then some '"'
  else if c = '\\' then some '\\'
  else if c = '/' then some '/'
  else if c = 'b' then some (Char.ofNat 8)
  else if c = 'f' then some (Char.ofNat 12)
  else if c = 'n' then some '\n'
  else if c = 'r' then some '\r'
  else if c = 't' then some '\t'
  else none

/-- The contents of a string literal: the input starts after the opening quote;
the result is the unquoted text and what follows the closing quote. The first
argument bounds the number of steps (the length of the input is enough). -/
def unquote : Nat → List Char → Option (List Char × List Char)
  | 0, _ => none
  | _ + 1, [] => none
  | n + 1, c :: rest =>
    if c = '"' then some ([], rest)
    else if c = '\\' then
      match rest with
      | [] => none
      | e :: rest1 =>
        if e = 'u' then
          match getu4 rest1 with
          | none => none
          | some (rr, rest2) =>
            if isSurrogate rr then
              match escapeU rest2 with
              | some (rr1, rest3) =>
                if decodeRune rr rr1 ≠ replacementChar then
                  (unquote n rest3).map (fun p => (decodeRune rr rr1 :: p.1, p.2))
                else (unquote n rest2).map (fun p => (replacementChar :: p.1, p.2))
              | none => (unquote n rest2).map (fun p => (replacementChar :: p.1, p.2))
            else (unquote n rest2).map (fun p => (Char.ofNat rr :: p.1, p.2))
        else
          match simpleEscape e with
          | none => none
          | some x => (unquote n rest1).map (fun p => (x :: p.1, p.2))
    else if c.toNat < 0x20 then none
    else (unquote n rest).map (fun p => (c :: p.1, p.2))

/-- Whether a character is a decimal digit. -/
def isDigit (c : Char) : Bool := '0'.toNat ≤ c.toNat ∧ c.toNat ≤ '9'.toNat

/-- Drop leading digits. -/
def skipDigits : List Char → List Char
  | [] => []
  | c :: cs => if isDigit c then skipDigits cs else c :: cs

/-- One or more digits. -/
def digits1 : List Char → Option (List Char)
  | [] => none
  | c :: cs => if isDigit c then some (skipDigits cs) else none

/-- The optional exponent of a number. -/
def scanExponent : List Char → Option (List Char)
  | [] => some []
  | c :: cs =>
    if c = 'e' ∨ c = 'E' then
      match cs with
      | [] => none
      | s :: cs1 => if s = '+' ∨ s = '-' then digits1 cs1 else digits1 (s :: cs1)
    else some (c :: cs)

/-- The optional fraction of a number, then its optional exponent. -/
def scanFraction : List Char → Option (List Char)
  | [] => some []
  | c :: cs =>
    if c = '.' then (digits1 cs).bind scanExponent else scanExponent (c :: cs)

/-- The integer part of a number (after the optional sign), then the rest of it. -/
def scanInteger : List Char → Option (List Char)
  | [] => none
  | c :: cs =>
    if c = '0' then scanFraction cs
    else if isDigit c then scanFraction (skipDigits cs)
    else none

/-- A number literal; the result is what follows it. -/
def scanNumber : List Char → Option (List Char)
  | [] => none
  | c :: cs => if c = '-' then scanInteger cs else scanInteger (c :: cs)

/-- A literal word at the head of the input. -/
def scanWord (w : List Char) (cs : List Char) : Option (List Char) :=
  if w.isPrefixOf cs then some (cs.drop w.length) else none

/-- A value that is neither an array nor an object. -/
def parseScalar : List Char → Option (Value × List Char)
  | [] => none
  | c :: rest =>
    if c = '"' then (unquote (rest.length + 1) rest).map (fun p => (Value.str (String.mk p.1), p.2))
    else if c = 't' then (scanWord "true".data (c :: rest)).map (fun r => (Value.bool true, r))
    else if c = 'f' then (scanWord "false".data (c :: rest)).map (fun r => (Value.bool false, r))
    else if c = 'n' then (scanWord "null".data (c :: rest)).map (fun r => (Value.null, r))
    else if c = '-' ∨ isDigit c then (scanNumber (c :: rest)).map (fun r => (Value.num, r))
    else none

/-- The elements of a non-empty array, from the first element to the closing
bracket; `pv` parses one element. The first argument bounds the number of
elements. -/
def parseElems (pv : List Char → Option (Value × List Char)) :
    Nat → List Char → Option (List Char)
  | 0, _ => none
  | n + 1, cs =>
    match pv cs with
    | none => none
    | some (_, r) =>
      match skipSpace r with
      | [] => none
      | c :: r1 =>
        if c = ',' then parseElems pv n (skipSpace r1)
        else if c = ']' then some r1
        else none

/-- The members of a non-empty object, from the first key to the closing brace;
`pv` parses one value. The first argument bounds the number of members. -/
def parseMembers (pv : List Char → Option (Value × List Char)) :
    Nat → List Char → Option (List (String × Value) × List Char)
  | 0, _ => none
  | _ + 1, [] => none
  | n + 1, q :: r =>
    if q = '"' then
      match unquote (r.length + 1) r with
      | none => none
      | some (k, r1) =>
        match skipSpace r1 with
        | [] => none
        | colon :: r2 =>
          if colon = ':' then
            match pv (skipSpace r2) with
            | none => none
            | some (v, r3) =>
              match skipSpace r3 with
              | [] => none
              | c :: r4 =>
                if c = ',' then
                  (parseMembers pv n (skipSpace r4)).map
                    (fun p => ((String.mk k, v) :: p.1, p.2))
                else if c = '}' then some ([(String.mk k, v)], r4)
                else none
          else none
    else none

/-- An array, after its opening bracket. -/
def parseArray (pv : List Char → Option (Value × List Char)) (r : List Char) :
    Option (Value × List Char) :=
  match skipSpace r with
  | [] => none
  | c :: r1 =>
    if c = ']' then some (Value.arr, r1)
    else (parseElems pv (r.length + 1) (c :: r1)).map (fun rest => (Value.arr, rest))

/-- An object, after its opening brace. -/
def parseObject (pv : List Char → Option (Value × List Char)) (r : List Char) :
    Option (Value × List Char) :=
  match skipSpace r with
  | [] => none
  | c :: r1 =>
    if c = '}' then some (Value.obj [], r1)
    else (parseMembers pv (r.length + 1) (c :: r1)).map (fun p => (Value.obj p.1, p.2))

/-- A value at the head of the input (white space already skipped); the first
argument is the number of further levels of nesting allowed. -/
def parseValue : Nat → List Char → Option (Value × List Char)
  | 0, cs =>
    match cs with
    | [] => none
    | c :: _ => if c = '{' ∨ c = '[' then none else parseScalar cs
  | d + 1, cs =>
    match cs with
    | [] => none
    | c :: r =>
      if c = '{' then parseObject (parseValue d) r
      else if c = '[' then parseArray (parseValue d) r
      else parseScalar cs

/-- The body as one JSON value, with white space allowed around it. -/
def parse (body : String) : Option Value :=
  match parseValue maxNestingDepth (skipSpace body.data) with
  | none => none
  | some (v, rest) => if skipSpace rest = [] then some v else none

/-- Binding one member of an object to the struct: a string is assigned to the
field the key denotes, `null` leaves the field as it is, any other value is a
type error, which is remembered while decoding goes on; a key that denotes no
field is skipped. The boolean is the remembered error. -/
def decodeMember (acc : User × Bool) (m : String × Value) : User × Bool :=
  match fieldByName m.1 with
  | none => acc
  | some f =>
    match m.2 with
    | Value.str s => (acc.1.set f s, acc.2)
    | Value.null => acc
    | _ => (acc.1, true)

/-- The model of `json.Unmarshal([]byte(body), &u)` for a zero `u : User`: a
syntax error for a body that is not JSON; `null` leaves `u` zero; an object is
bound member by member, in order; any other value is a type error. -/
def Unmarshal (body : String) : Except Error User :=
  match parse body with
  | none => .error .syntaxError
  | some Value.null => .ok User.zero
  | some (Value.obj ms) =>
    let r := ms.foldl decodeMember (User.zero, false)
    if r.2 then .error .unmarshalTypeError else .ok r.1
  | some _ => .error .unmarshalTypeError

/-- The property of a parser of values that it consumes at least one character
of its input when it succeeds. -/
def Consumes (pv : List Char → Option (Value × List Char)) : Prop :=
  ∀ cs v r, pv cs = some (v, r) → r.length < cs.length

/-! ### The encoder

The text `json.Marshal` writes for a `User`: an object of the three fields in
declaration order, each string quoted with the escapes of the encoder. -/

/-- The hexadecimal digit of a number below 16. -/
def hexDigit (n : Nat) : Char :=
  "0123456789abcdef".data.getD n '0'

/-- The text the encoder writes for one character of a string: a backslash
before the quote and the backslash, the short escapes of the line feed, the
carriage return and the tab, `\u00XX` for the other control characters and for
the characters `<`, `>` and `&`, `\u202X` for the line and paragraph separators,
and the character itself otherwise. -/
def escapeChar (c : Char) : List Char :=
  if c = '"' ∨ c = '\\' then ['\\', c]
  else if c = '\n' then ['\\', 'n']
  else if c = '\r' then ['\\', 'r']
  else if c = '\t' then ['\\', 't']
  else if c.toNat < 0x20 ∨ c = '<' ∨ c = '>' ∨ c = '&' then
    ['\\', 'u', '0', '0', hexDigit (c.toNat / 16), hexDigit (c.toNat % 16)]
  else if c.toNat = 0x2028 ∨ c.toNat = 0x2029 then
    ['\\', 'u', '2', '0', '2', hexDigit (c.toNat % 16)]
  else [c]

/-- The escaped text of a string, without the quotes. -/
def escape : List Char → List Char
  | [] => []
  | c :: cs => escapeChar c ++ escape cs

/-- A quoted string followed by more text. -/
def quoteThen (s : String) (rest : List Char) : List Char :=
  '"' :: (escape s.data ++ '"' :: rest)

/-- One member of an object, `"name":"value"`, followed by more text. -/
def memberThen (name value : String) (rest : List Char) : List Char :=
  quoteThen name (':' :: quoteThen value rest)

/-- The model of `json.Marshal(u)` for `u : User`. -/
def Marshal (u : User) : String :=
  String.mk ('{' :: memberThen "email" u.Email (',' :: memberThen "firstName" u.FirstName
    (',' :: memberThen "lastName" u.LastName ['}'])))

end json

/-! ## DynamoDB: attribute values, requests, and the client interface -/

namespace dynamodb

/-- An attribute value, of one of the scalar kinds: a string, a number (kept as
its text), a boolean, or the null marker. The other kinds (binary, sets, lists,
maps) are not produced by the `User` encoder and are left out. -/
inductive AttributeValue where
  | S (s : String)
  | N (n : String)
  | BOOL (b : Bool)
  | NULL
  deriving DecidableEq, Repr

/-- An item, `map[string]*dynamodb.AttributeValue`, as an association list; the
nil map and the empty map are both `[]`. -/
abbrev Item := List (String × AttributeValue)

/-- The input of `GetItem`: only `Key` and `TableName` are set by the code. -/
structure GetItemInput where
  Key : Item
  TableName : String
  deriving DecidableEq, Repr

/-- The output of `GetItem`: `Item` is empty when no record has the key. -/
structure GetItemOutput where
  Item : Item
  deriving DecidableEq, Repr

/-- The input of `PutItem`. -/
structure PutItemInput where
  Item : Item
  TableName : String
  deriving DecidableEq, Repr

/-- The input of `DeleteItem`. -/
structure DeleteItemInput where
  Key : Item
  TableName : String
  deriving DecidableEq, Repr

/-- The input of `Scan`. -/
structure ScanInput where
  TableName : String
  deriving DecidableEq, Repr

/-- The output of `Scan`: the items of the table. -/
structure ScanOutput where
  Items : List Item
  deriving DecidableEq, Repr

/-- An error returned by the client (its code); the operations only test it for
being there. -/
abbrev Error := String

end dynamodb

namespace dynamodbiface

open dynamodb

/-- The client interface `dynamodbiface.DynamoDBAPI`, restricted to the four
calls the operations make, over a store of state `σ`. `GetItem` and `Scan` are
the reads: they answer from the state of the store. `PutItem` and `DeleteItem`
answer and leave a new state. Each may fail. -/
structure DynamoDBAPI (σ : Type) where
  GetItem : GetItemInput → σ → Except Error GetItemOutput
  Scan : ScanInput → σ → Except Error ScanOutput
  PutItem : PutItemInput → σ → Except Error Unit × σ
  DeleteItem : DeleteItemInput → σ → Except Error Unit × σ

end dynamodbiface

/-! ## dynamodbattribute: `MarshalMap` and `UnmarshalMap` for `User` -/

namespace dynamodbattribute

open user dynamodb

/-- The encoding of a string field: the encoder writes the null marker for an
empty string and a string attribute otherwise. -/
def encodeString (s : String) : AttributeValue :=
  if s = "" then AttributeValue.NULL else AttributeValue.S s

/-- The model of `dynamodbattribute.MarshalMap(u)` for `u : User`: one attribute
per field, under the field's tag name. It does not fail for this struct. -/
def MarshalMap (u : User) : Except String Item :=
  .ok [("email", encodeString u.Email),
       ("firstName", encodeString u.FirstName),
       ("lastName", encodeString u.LastName)]

/-- Decoding one attribute into the struct: an attribute whose name denotes no
field is skipped; a string is assigned; a number is assigned as its text; the
null marker resets the field to empty; a boolean is a type error. -/
def decodeAttr (acc : Except String User) (kv : String × AttributeValue) :
    Except String User :=
  match acc with
  | .error e => .error e
  | .ok u =>
    match fieldByName kv.1 with
    | none => .ok u
    | some f =>
      match kv.2 with
      | AttributeValue.S s => .ok (u.set f s)
      | AttributeValue.N n => .ok (u.set f n)
      | AttributeValue.NULL => .ok (u.set f "")
      | AttributeValue.BOOL _ => .error "UnmarshalTypeError"

/-- The model of `dynamodbattribute.UnmarshalMap(m, item)` for a zero
`item : User`: the attributes are decoded in turn (in the order of the list);
the empty item leaves the user zero and is no error. -/
def UnmarshalMap (m : Item) : Except String User :=
  m.foldl decodeAttr (.ok User.zero)

/-- The model of `dynamodbattribute.UnmarshalListOfMaps(l, items)` for a slice of
`User`: every item is decoded as `UnmarshalMap` does; the first failure is the
failure of the whole. -/
def UnmarshalListOfMaps : List Item → Except String (List User)
  | [] => .ok []
  | m :: ms =>
    match UnmarshalMap m with
    | .error e => .error e
    | .ok u =>
      match UnmarshalListOfMaps ms with
      | .error e => .error e
      | .ok us => .ok (u :: us)

end dynamodbattribute

/-! ## validators -/

namespace validators

/-- Whether a domain has a dot with something on both sides of the first one. -/
def hasDot (dom : List Char) : Bool :=
  match dom.span (fun c => c ≠ '.') with
  | (_, []) => false
  | (host, _ :: tld) => !host.isEmpty && !tld.isEmpty

/-- Modelled from the spec: `validators.IsEmailValid` is not part of the sources;
the spec describes it as a pure predicate accepting a local part, `@`, and a
domain with at least one dot, and rejecting the empty string, a missing `@` and
a missing domain. The operations below take the validator as a parameter; this
instance serves as a concrete one. -/
def IsEmailValid (email : String) : Bool :=
  match email.data.span (fun c => c ≠ '@') with
  | (_, []) => false
  | (loc, _ :: dom) => !loc.isEmpty && !dom.contains '@' && hasDot dom

end validators

/-! ## The request -/

namespace events

/-- The request `events.APIGatewayProxyRequest`, with the two fields the
operations read. `QueryStringParameters` is a map, as an association list. -/
structure APIGatewayProxyRequest where
  Body : String
  QueryStringParameters : List (String × String)
  deriving DecidableEq, Repr

end events

/-! ## The operations of user.go -/

namespace user

open dynamodb dynamodbiface

/-- A call made on the client. -/
inductive Call where
  | GetItem (input : GetItemInput)
  | Scan (input : ScanInput)
  | PutItem (input : PutItemInput)
  | DeleteItem (input : DeleteItemInput)
  deriving DecidableEq, Repr

/-- The store and the log of the client calls made so far, oldest first. -/
structure Sys (σ : Type) where
  store : σ
  calls : List Call

/-- The pair `(*User, error)` the operations return: `none` is `nil`. -/
abbrev Result := Option User × Option String

/-- The value of `m[key]` for a map of strings: empty when the key is absent. -/
def mapIndex (m : List (String × String)) (key : String) : String :=
  (m.lookup key).getD ""

/-- The embedding of `FetchUser`: one `GetItem` with the key `email`, then the
decoding of the returned item into a new `User`. -/
def FetchUser {σ : Type} (email tableName : String) (dynaClient : DynamoDBAPI σ)
    (w : Sys σ) : Result × Sys σ :=
  let input : GetItemInput :=
    { Key := [("email", AttributeValue.S email)], TableName := tableName }
  let w1 : Sys σ := { store := w.store, calls := w.calls ++ [Call.GetItem input] }
  match dynaClient.GetItem input w.store with
  | .error _ => ((none, some ErrorFailedToFetchRecord), w1)
  | .ok result =>
    match dynamodbattribute.UnmarshalMap result.Item with
    | .error _ => ((none, some ErrorFailedToFetchRecord), w1)
    | .ok item => ((some item, none), w1)

/-- The embedding of `FetchUsers`: one `Scan` of the table, then the decoding of
every item; the result is `(*[]User, error)`. -/
def FetchUsers {σ : Type} (tableName : String) (dynaClient : DynamoDBAPI σ)
    (w : Sys σ) : (Option (List User) × Option String) × Sys σ :=
  let input : ScanInput := { TableName := tableName }
  let w1 : Sys σ := { store := w.store, calls := w.calls ++ [Call.Scan input] }
  match dynaClient.Scan input w.store with
  | .error _ => ((none, some ErrorFailedToFetchRecord), w1)
  | .ok result =>
    match dynamodbattribute.UnmarshalListOfMaps result.Items with
    | .error _ => ((none, some ErrorFailedToUnmarshalRecord), w1)
    | .ok items => ((some items, none), w1)

/-- The test `currentUser != nil && len(currentUser.Email) != 0`. -/
def isExisting (currentUser : Option User) : Bool :=
  match currentUser with
  | none => false
  | some cu => cu.Email.utf8ByteSize != 0

/-- The embedding of `CreateUser`; `IsEmailValid` is `validators.IsEmailValid`.
The error of the existence check is dropped (`currentUser, _ := FetchUser(...)`). -/
def CreateUser {σ : Type} (IsEmailValid : String → Bool)
    (req : events.APIGatewayProxyRequest) (tableName : String)
    (dynaClient : DynamoDBAPI σ) (w : Sys σ) : Result × Sys σ :=
  match json.Unmarshal req.Body with
  | .error _ => ((none, some ErrorInvalidUserData), w)
  | .ok u =>
    if !IsEmailValid u.Email then ((none, some ErrorInvalidEmail), w)
    else
      let fetched := FetchUser u.Email tableName dynaClient w
      let currentUser := fetched.1.1
      if isExisting currentUser then ((none, some ErrorUserAlreadyExists), fetched.2)
      else
        match dynamodbattribute.MarshalMap u with
        | .error _ => ((none, some ErrorCouldNotMarshalItem), fetched.2)
        | .ok av =>
          let input : PutItemInput := { Item := av, TableName := tableName }
          let r := dynaClient.PutItem input fetched.2.store
          let w1 : Sys σ :=
            { store := r.2, calls := fetched.2.calls ++ [Call.PutItem input] }
          match r.1 with
          | .error _ => ((none, some ErrorCouldNotDynamoPutItem), w1)
          | .ok _ => ((some u, none), w1)

/-- The embedding of `UpdateUser`; the existence check keeps only the error of
`FetchUser` (`_, err := FetchUser(...)`) and returns it as it is. -/
def UpdateUser {σ : Type} (IsEmailValid : String → Bool)
    (req : events.APIGatewayProxyRequest) (tableName : String)
    (dynaClient : DynamoDBAPI σ) (w : Sys σ) : Result × Sys σ :=
  match json.Unmarshal req.Body with
  | .error _ => ((none, some ErrorInvalidEmail), w)
  | .ok u =>
    if !IsEmailValid u.Email then ((none, some ErrorInvalidEmail), w)
    else
      let fetched := FetchUser u.Email tableName dynaClient w
      match fetched.1.2 with
      | some err => ((none, some err), fetched.2)
      | none =>
        match dynamodbattribute.MarshalMap u with
        | .error _ => ((none, some ErrorCouldNotMarshalItem), fetched.2)
        | .ok av =>
          let input : PutItemInput := { Item := av, TableName := tableName }
          let r := dynaClient.PutItem input fetched.2.store
          let w1 : Sys σ :=
            { store := r.2, calls := fetched.2.calls ++ [Call.PutItem input] }
          match r.1 with
          | .error _ => ((none, some ErrorCouldNotDynamoPutItem), w1)
          | .ok _ => ((some u, none), w1)

/-- The embedding of `DeleteUser`: the result is the error, `none` for `nil`. -/
def DeleteUser {σ : Type} (req : events.APIGatewayProxyRequest) (tableName : String)
    (dynaClient : DynamoDBAPI σ) (w : Sys σ) : Option String × Sys σ :=
  let email := mapIndex req.QueryStringParameters "email"
  let input : DeleteItemInput :=
    { Key := [("email", AttributeValue.S email)], TableName := tableName }
  let r := dynaClient.DeleteItem input w.store
  let w1 : Sys σ := { store := r.2, calls := w.calls ++ [Call.DeleteItem input] }
  match r.1 with
  | .error _ => (some ErrorCouldNotDeleteItem, w1)
  | .ok _ => (none, w1)

/-- The input `FetchUser` builds for an email and a table. -/
def fetchInput (email tableName : String) : GetItemInput :=
  { Key := [("email", AttributeValue.S email)], TableName := tableName }

/-- The item `MarshalMap` gives for a user. -/
def userItem (u : User) : Item :=
  [("email", dynamodbattribute.encodeString u.Email),
   ("firstName", dynamodbattribute.encodeString u.FirstName),
   ("lastName", dynamodbattribute.encodeString u.LastName)]

/-- The input `CreateUser` and `UpdateUser` build for a user and a table. -/
def putInput (u : User) (tableName : String) : PutItemInput :=
  { Item := userItem u, TableName := tableName }

/-- The input `DeleteUser` builds for an email and a table. -/
def deleteInput (email tableName : String) : DeleteItemInput :=
  { Key := [("email", AttributeValue.S email)], TableName := tableName }

/-- A request whose body is cut short: `{"email":"a@b.com"` without the closing
brace. -/
def truncatedBody : events.APIGatewayProxyRequest :=
  { Body := "\x7b\"email\":\"a@b.com\"", QueryStringParameters := [] }

end user

/-! ## An in-memory store

A store of tables of items whose partition key is the string attribute `email`,
with the client calls of DynamoDB on it: a call on a table that does not exist
fails, a key that is not a non-empty string fails, `GetItem` returns the item
with the key or the empty item, `PutItem` replaces the item with the same key,
`DeleteItem` removes it and succeeds whether it was there or not, `Scan` returns
the items of a table. -/

namespace memstore

open dynamodb dynamodbiface

/-- The tables of the store by name; `none` for a table that does not exist. -/
abbrev Store := String → Option (List Item)

/-- The value of a key made of the one attribute `email`, a non-empty string. -/
def keyEmail (k : Item) : Option String :=
  match k with
  | [(name, AttributeValue.S e)] => if name = "email" ∧ e ≠ "" then some e else none
  | _ => none

/-- The key of an item to store: its attribute `email`, a non-empty string. -/
def itemKey (it : Item) : Option String :=
  match it.lookup "email" with
  | some (AttributeValue.S e) => if e ≠ "" then some e else none
  | _ => none

/-- Whether a stored item has the key `e`. -/
def hasKey (e : String) (it : Item) : Bool :=
  it.lookup "email" = some (AttributeValue.S e)

/-- The call `GetItem` on the store. -/
def GetItem (input : GetItemInput) (s : Store) : Except Error GetItemOutput :=
  match s input.TableName with
  | none => .error "ResourceNotFoundException"
  | some items =>
    match keyEmail input.Key with
    | none => .error "ValidationException"
    | some e => .ok { Item := (items.find? (hasKey e)).getD [] }

/-- The call `PutItem` on the store. -/
def PutItem (input : PutItemInput) (s : Store) : Except Error Unit × Store :=
  match s input.TableName with
  | none => (.error "ResourceNotFoundException", s)
  | some items =>
    match itemKey input.Item with
    | none => (.error "ValidationException", s)
    | some e =>
      (.ok (), fun t =>
        if t = input.TableName then
          some (input.Item :: items.filter (fun it => !hasKey e it))
        else s t)

/-- The call `DeleteItem` on the store. -/
def DeleteItem (input : DeleteItemInput) (s : Store) : Except Error Unit × Store :=
  match s input.TableName with
  | none => (.error "ResourceNotFoundException", s)
  | some items =>
    match keyEmail input.Key with
    | none => (.error "ValidationException", s)
    | some e =>
      (.ok (), fun t =>
        if t = input.TableName then some (items.filter (fun it => !hasKey e it))
        else s t)

/-- The call `Scan` on the store: the items of the table, in one page. -/
def Scan (input : ScanInput) (s : Store) : Except Error ScanOutput :=
  match s input.TableName with
  | none => .error "ResourceNotFoundException"
  | some items => .ok { Items := items }

/-- The in-memory store as a client. -/
def client : DynamoDBAPI Store :=
  { GetItem := GetItem, Scan := Scan, PutItem := PutItem, DeleteItem := DeleteItem }

/-- The store with the one table `users` holding the given items. -/
def usersTable (items : List Item) : Store :=
  fun t => if t = "users" then some items else none

end memstore

/-! ## Sample requests and stores -/

namespace sample

open dynamodb user

/-- The user of the round-trip example. -/
def userAB : User := { Email := "a@b.com", FirstName := "A", LastName := "B" }

/-- The request with body `{"email":"a@b.com","firstName":"A","lastName":"B"}`. -/
def requestAB : events.APIGatewayProxyRequest :=
  { Body := "\x7b\"email\":\"a@b.com\",\"firstName\":\"A\",\"lastName\":\"B\"\x7d",
    QueryStringParameters := [] }

/-- The request with body `{"firstName":"A"}`: no email field. -/
def requestNoEmail : events.APIGatewayProxyRequest :=
  { Body := "\x7b\"firstName\":\"A\"\x7d", QueryStringParameters := [] }

/-- The request with body `{"email":"a@b.com","firstName":"New"}`: no last name. -/
def requestFirstOnly : events.APIGatewayProxyRequest :=
  { Body := "\x7b\"email\":\"a@b.com\",\"firstName\":\"New\"\x7d",
    QueryStringParameters := [] }

/-- The request of a delete, with the query parameter `email=a@b.com`. -/
def requestDelete : events.APIGatewayProxyRequest :=
  { Body := "", QueryStringParameters := [("email", "a@b.com")] }

/-- A stored record under `a@b.com`. -/
def storedOld : Item :=
  [("email", AttributeValue.S "a@b.com"), ("firstName", AttributeValue.S "Old"),
   ("lastName", AttributeValue.S "Name")]

/-- A stored record under another email. -/
def storedOther : Item :=
  [("email", AttributeValue.S "c@d.org"), ("firstName", AttributeValue.S "C"),
   ("lastName", AttributeValue.NULL)]

/-- A stored item under `a@b.com` that does not decode as a user: its first name
is a boolean. -/
def storedBroken : Item :=
  [("email", AttributeValue.S "a@b.com"), ("firstName", AttributeValue.BOOL true)]

/-- A store without any table: every call on it fails. -/
def noTables : memstore.Store := fun _ => none

end sample

/-! ## The step bounds of the parser are never reached

Every step of the parser consumes at least one character, so a bound above the
length of the input is as good as any larger one. -/

namespace json

open user

theorem getu4_length (cs rest : List Char) (r : Nat) (h : getu4 cs = some (r, rest)) :
    rest.length + 4 = cs.length := by
  match cs, h with
  | a :: b :: c :: d :: tl, h =>
    simp only [getu4] at h
    split at h
    · simp only [Option.some.injEq, Prod.mk.injEq] at h
      simp [h.2]
    · simp at h

theorem escapeU_length (cs rest : List Char) (r : Nat) (h : escapeU cs = some (r, rest)) :
    rest.length + 6 = cs.length := by
  match cs, h with
  | c :: e :: tl, h =>
    simp only [escapeU] at h
    split at h
    · have := getu4_length tl rest r h
      simp only [List.length_cons]
      omega
    · simp at h

theorem skipSpace_length (cs : List Char) : (skipSpace cs).length ≤ cs.length := by
  induction cs with
  | nil => simp [skipSpace]
  | cons c cs ih =>
    unfold skipSpace
    split
    · simp only [List.length_cons]; omega
    · exact Nat.le_refl _

/-- Two bounds above the length of the input give the same string. -/
theorem unquote_fuel : ∀ (n m : Nat) (cs : List Char), cs.length < n → cs.length < m →
    unquote n cs = unquote m cs := by
  intro n
  induction n with
  | zero => intro m cs hn; omega
  | succ n ih =>
    intro m cs hn hm
    obtain ⟨m, rfl⟩ : ∃ k, m = k + 1 := ⟨m - 1, by omega⟩
    cases cs with
    | nil => simp [unquote]
    | cons c rest =>
      simp only [List.length_cons] at hn hm
      have h0 := ih m rest (by omega) (by omega)
      unfold unquote
      split
      · rfl
      · split
        · cases rest with
          | nil => rfl
          | cons e rest1 =>
            simp only [List.length_cons] at hn hm
            have h1 := ih m rest1 (by omega) (by omega)
            simp only []
            split
            · cases hg : getu4 rest1 with
              | none => rfl
              | some p =>
                obtain ⟨rr, rest2⟩ := p
                have hl := getu4_length rest1 rest2 rr hg
                have h2 := ih m rest2 (by omega) (by omega)
                simp only []
                split
                · cases he : escapeU rest2 with
                  | none => simp only [h2]
                  | some q =>
                    obtain ⟨rr1, rest3⟩ := q
                    have hl3 := escapeU_length rest2 rest3 rr1 he
                    have h3 := ih m rest3 (by omega) (by omega)
                    simp only [h2, h3]
                · simp only [h2]
            · cases simpleEscape e with
              | none => rfl
              | some x => simp only [h1]
        · split
          · rfl
          · simp only [h0]

/-- A string literal that is read leaves less than it was given. -/
theorem unquote_length : ∀ (n : Nat) (cs x r : List Char), unquote n cs = some (x, r) →
    r.length < cs.length := by
  intro n
  induction n with
  | zero => intro cs x r h; simp [unquote] at h
  | succ n ih =>
    intro cs x r h
    cases cs with
    | nil => simp [unquote] at h
    | cons c rest =>
      have hmap : ∀ (a : Char) (l : List Char),
          (unquote n l).map (fun p => (a :: p.1, p.2)) = some (x, r) → r.length < l.length := by
        intro a l hl
        cases hu : unquote n l with
        | none => simp [hu] at hl
        | some p =>
          obtain ⟨y, r1⟩ := p
          simp only [hu, Option.map_some', Option.some.injEq, Prod.mk.injEq] at hl
          have := ih l y r1 hu
          rw [← hl.2]
          exact this
      unfold unquote at h
      simp only [List.length_cons]
      split at h
      · simp only [Option.some.injEq, Prod.mk.injEq] at h
        rw [← h.2]; omega
      · split at h
        · cases rest with
          | nil => simp at h
          | cons e rest1 =>
            simp only [] at h
            simp only [List.length_cons]
            split at h
            · cases hg : getu4 rest1 with
              | none => simp [hg] at h
              | some p =>
                obtain ⟨rr, rest2⟩ := p
                have hl := getu4_length rest1 rest2 rr hg
                simp only [hg] at h
                split at h
                · cases he : escapeU rest2 with
                  | none =>
                    simp only [he] at h
                    have := hmap _ _ h
                    omega
                  | some q =>
                    obtain ⟨rr1, rest3⟩ := q
                    have hl3 := escapeU_length rest2 rest3 rr1 he
                    simp only [he] at h
                    split at h
                    · have := hmap _ _ h
                      omega
                    · have := hmap _ _ h
                      omega
                · have := hmap _ _ h
                  omega
            · cases hs : simpleEscape e with
              | none => simp [hs] at h
              | some y =>
                simp only [hs] at h
                have := hmap _ _ h
                omega
        · split at h
          · simp at h
          · have := hmap _ _ h
            omega

theorem skipDigits_length (cs : List Char) : (skipDigits cs).length ≤ cs.length := by
  induction cs with
  | nil => simp [skipDigits]
  | cons c cs ih =>
    unfold skipDigits
    split
    · simp only [List.length_cons]; omega
    · exact Nat.le_refl _

theorem digits1_length (cs r : List Char) (h : digits1 cs = some r) :
    r.length < cs.length := by
  cases cs with
  | nil => simp [digits1] at h
  | cons c cs =>
    rw [digits1] at h
    split at h
    · simp only [Option.some.injEq] at h
      have := skipDigits_length cs
      simp only [← h, List.length_cons]
      omega
    · simp at h

theorem scanExponent_length (cs r : List Char) (h : scanExponent cs = some r) :
    r.length ≤ cs.length := by
  cases cs with
  | nil =>
    simp only [scanExponent, Option.some.injEq] at h
    simp [← h]
  | cons c cs =>
    rw [scanExponent.eq_def] at h
    simp only [] at h
    split at h
    · cases cs with
      | nil => simp at h
      | cons s cs1 =>
        simp only [] at h
        simp only [List.length_cons]
        split at h
        · have := digits1_length _ _ h
          omega
        · have := digits1_length _ _ h
          simp only [List.length_cons] at this
          omega
    · simp only [Option.some.injEq] at h
      simp [← h]

theorem scanFraction_length (cs r : List Char) (h : scanFraction cs = some r) :
    r.length ≤ cs.length := by
  cases cs with
  | nil =>
    simp only [scanFraction, Option.some.injEq] at h
    simp [← h]
  | cons c cs =>
    rw [scanFraction] at h
    split at h
    · cases hd : digits1 cs with
      | none => simp [hd] at h
      | some r1 =>
        simp only [hd, Option.some_bind] at h
        have h1 := digits1_length _ _ hd
        have h2 := scanExponent_length _ _ h
        simp only [List.length_cons]
        omega
    · exact scanExponent_length _ _ h

theorem scanInteger_length (cs r : List Char) (h : scanInteger cs = some r) :
    r.length < cs.length := by
  cases cs with
  | nil => simp [scanInteger] at h
  | cons c cs =>
    rw [scanInteger] at h
    simp only [List.length_cons]
    split at h
    · have := scanFraction_length _ _ h
      omega
    · split at h
      · have := scanFraction_length _ _ h
        have := skipDigits_length cs
        omega
      · simp at h

theorem scanNumber_length (cs r : List Char) (h : scanNumber cs = some r) :
    r.length < cs.length := by
  cases cs with
  | nil => simp [scanNumber] at h
  | cons c cs =>
    rw [scanNumber] at h
    split at h
    · have := scanInteger_length _ _ h
      simp only [List.length_cons]
      omega
    · exact scanInteger_length _ _ h

theorem scanWord_length (w cs r : List Char) (hw : 0 < w.length)
    (h : scanWord w cs = some r) : r.length < cs.length := by
  unfold scanWord at h
  split at h
  · rename_i hp
    simp only [Option.some.injEq] at h
    have hle : w.length ≤ cs.length := (List.isPrefixOf_iff_prefix.1 hp).length_le
    simp only [← h, List.length_drop]
    omega
  · simp at h

/-- A scalar that is read leaves less than it was given. -/
theorem parseScalar_length (cs r : List Char) (v : Value)
    (h : parseScalar cs = some (v, r)) : r.length < cs.length := by
  cases cs with
  | nil => simp [parseScalar] at h
  | cons c rest =>
    rw [parseScalar] at h
    have hword : ∀ (w : List Char) (x : Value), 0 < w.length →
        (scanWord w (c :: rest)).map (fun r => (x, r)) = some (v, r) →
        r.length < (c :: rest).length := by
      intro w x hw hm
      cases hs : scanWord w (c :: rest) with
      | none => simp [hs] at hm
      | some r1 =>
        simp only [hs, Option.map_some', Option.some.injEq, Prod.mk.injEq] at hm
        rw [← hm.2]
        exact scanWord_length w _ _ hw hs
    split at h
    · cases hu : unquote (rest.length + 1) rest with
      | none => simp [hu] at h
      | some p =>
        obtain ⟨x, r1⟩ := p
        simp only [hu, Option.map_some', Option.some.injEq, Prod.mk.injEq] at h
        have := unquote_length _ _ _ _ hu
        simp only [← h.2, List.length_cons]
        omega
    · split at h
      · exact hword _ _ (by decide) h
      · split at h
        · exact hword _ _ (by decide) h
        · split at h
          · exact hword _ _ (by decide) h
          · split at h
            · cases hs : scanNumber (c :: rest) with
              | none => simp [hs] at h
              | some r1 =>
                simp only [hs, Option.map_some', Option.some.injEq, Prod.mk.injEq] at h
                rw [← h.2]
                exact scanNumber_length _ _ hs
            · simp at h

/-- The elements of an array that are read leave less than they were given. -/
theorem parseElems_length (pv : List Char → Option (Value × List Char)) (hpv : Consumes pv) :
    ∀ (n : Nat) (cs r : List Char), parseElems pv n cs = some r → r.length < cs.length := by
  intro n
  induction n with
  | zero => intro cs r h; simp [parseElems] at h
  | succ n ih =>
    intro cs r h
    unfold parseElems at h
    cases hp : pv cs with
    | none => simp [hp] at h
    | some p =>
      obtain ⟨v, r0⟩ := p
      have h0 := hpv cs v r0 hp
      have hsp := skipSpace_length r0
      simp only [hp] at h
      cases hs : skipSpace r0 with
      | nil => simp [hs] at h
      | cons c r1 =>
        rw [hs] at hsp
        simp only [List.length_cons] at hsp
        simp only [hs] at h
        split at h
        · have := ih _ _ h
          have := skipSpace_length r1
          omega
        · split at h
          · simp only [Option.some.injEq] at h
            rw [← h]; omega
          · simp at h

/-- Two bounds above the length of the input give the same elements. -/
theorem parseElems_fuel (pv : List Char → Option (Value × List Char)) (hpv : Consumes pv) :
    ∀ (n m : Nat) (cs : List Char), cs.length < n → cs.length < m →
      parseElems pv n cs = parseElems pv m cs := by
  intro n
  induction n with
  | zero => intro m cs hn; omega
  | succ n ih =>
    intro m cs hn hm
    obtain ⟨m, rfl⟩ : ∃ k, m = k + 1 := ⟨m - 1, by omega⟩
    unfold parseElems
    cases hp : pv cs with
    | none => rfl
    | some p =>
      obtain ⟨v, r0⟩ := p
      have h0 := hpv cs v r0 hp
      have hsp := skipSpace_length r0
      simp only []
      cases hs : skipSpace r0 with
      | nil => rfl
      | cons c r1 =>
        rw [hs] at hsp
        simp only [List.length_cons] at hsp
        have h1 := skipSpace_length r1
        simp only []
        split
        · exact ih m _ (by omega) (by omega)
        · rfl

/-- The members of an object that are read leave less than they were given. -/
theorem parseMembers_length (pv : List Char → Option (Value × List Char)) (hpv : Consumes pv) :
    ∀ (n : Nat) (cs r : List Char) (ms : List (String × Value)),
      parseMembers pv n cs = some (ms, r) → r.length < cs.length := by
  intro n
  induction n with
  | zero => intro cs r ms h; simp [parseMembers] at h
  | succ n ih =>
    intro cs r ms h
    cases cs with
    | nil => simp [parseMembers] at h
    | cons q r0 =>
      rw [parseMembers] at h
      simp only [List.length_cons]
      split at h
      · cases hu : unquote (r0.length + 1) r0 with
        | none => simp [hu] at h
        | some p =>
          obtain ⟨k, r1⟩ := p
          have hl1 := unquote_length _ _ _ _ hu
          have hsp1 := skipSpace_length r1
          simp only [hu] at h
          cases hs1 : skipSpace r1 with
          | nil => simp [hs1] at h
          | cons colon r2 =>
            rw [hs1] at hsp1
            simp only [List.length_cons] at hsp1
            have hsp2 := skipSpace_length r2
            simp only [hs1] at h
            split at h
            · cases hp : pv (skipSpace r2) with
              | none => simp [hp] at h
              | some p =>
                obtain ⟨v, r3⟩ := p
                have hl3 := hpv _ _ _ hp
                have hsp3 := skipSpace_length r3
                simp only [hp] at h
                cases hs3 : skipSpace r3 with
                | nil => simp [hs3] at h
                | cons c r4 =>
                  rw [hs3] at hsp3
                  simp only [List.length_cons] at hsp3
                  have hsp4 := skipSpace_length r4
                  simp only [hs3] at h
                  split at h
                  · cases hm : parseMembers pv n (skipSpace r4) with
                    | none => simp [hm] at h
                    | some p =>
                      obtain ⟨ms1, r5⟩ := p
                      have := ih _ _ _ hm
                      simp only [hm, Option.map_some', Option.some.injEq, Prod.mk.injEq] at h
                      rw [← h.2]
                      omega
                  · split at h
                    · simp only [Option.some.injEq, Prod.mk.injEq] at h
                      rw [← h.2]
                      omega
                    · simp at h
            · simp at h
      · simp at h

/-- Two bounds above the length of the input give the same members. -/
theorem parseMembers_fuel (pv : List Char → Option (Value × List Char)) (hpv : Consumes pv) :
    ∀ (n m : Nat) (cs : List Char), cs.length < n → cs.length < m →
      parseMembers pv n cs = parseMembers pv m cs := by
  intro n
  induction n with
  | zero => intro m cs hn; omega
  | succ n ih =>
    intro m cs hn hm
    obtain ⟨m, rfl⟩ : ∃ k, m = k + 1 := ⟨m - 1, by omega⟩
    cases cs with
    | nil => simp [parseMembers]
    | cons q r0 =>
      simp only [List.length_cons] at hn hm
      rw [parseMembers, parseMembers]
      split
      · cases hu : unquote (r0.length + 1) r0 with
        | none => rfl
        | some p =>
          obtain ⟨k, r1⟩ := p
          have hl1 := unquote_length _ _ _ _ hu
          have hsp1 := skipSpace_length r1
          simp only []
          cases hs1 : skipSpace r1 with
          | nil => rfl
          | cons colon r2 =>
            rw [hs1] at hsp1
            simp only [List.length_cons] at hsp1
            have hsp2 := skipSpace_length r2
            simp only []
            split
            · cases hp : pv (skipSpace r2) with
              | none => rfl
              | some p =>
                obtain ⟨v, r3⟩ := p
                have hl3 := hpv _ _ _ hp
                have hsp3 := skipSpace_length r3
                simp only []
                cases hs3 : skipSpace r3 with
                | nil => rfl
                | cons c r4 =>
                  rw [hs3] at hsp3
                  simp only [List.length_cons] at hsp3
                  have hsp4 := skipSpace_length r4
                  simp only []
                  split
                  · rw [ih m _ (by omega) (by omega)]
                  · rfl
            · rfl
      · rfl

/-- An array that is read leaves no more than what followed its bracket. -/
theorem parseArray_length (pv : List Char → Option (Value × List Char)) (hpv : Consumes pv)
    (r0 r : List Char) (v : Value) (h : parseArray pv r0 = some (v, r)) :
    r.length < r0.length := by
  unfold parseArray at h
  have hsp := skipSpace_length r0
  cases hs : skipSpace r0 with
  | nil => simp [hs] at h
  | cons c r1 =>
    rw [hs] at hsp
    simp only [List.length_cons] at hsp
    simp only [hs] at h
    split at h
    · simp only [Option.some.injEq, Prod.mk.injEq] at h
      rw [← h.2]; omega
    · cases he : parseElems pv (r0.length + 1) (c :: r1) with
      | none => simp [he] at h
      | some r2 =>
        have := parseElems_length pv hpv _ _ _ he
        simp only [he, Option.map_some', Option.some.injEq, Prod.mk.injEq] at h
        simp only [List.length_cons] at this
        rw [← h.2]; omega

/-- An object that is read leaves no more than what followed its brace. -/
theorem parseObject_length (pv : List Char → Option (Value × List Char)) (hpv : Consumes pv)
    (r0 r : List Char) (v : Value) (h : parseObject pv r0 = some (v, r)) :
    r.length < r0.length := by
  unfold parseObject at h
  have hsp := skipSpace_length r0
  cases hs : skipSpace r0 with
  | nil => simp [hs] at h
  | cons c r1 =>
    rw [hs] at hsp
    simp only [List.length_cons] at hsp
    simp only [hs] at h
    split at h
    · simp only [Option.some.injEq, Prod.mk.injEq] at h
      rw [← h.2]; omega
    · cases he : parseMembers pv (r0.length + 1) (c :: r1) with
      | none => simp [he] at h
      | some p =>
        obtain ⟨ms, r2⟩ := p
        have := parseMembers_length pv hpv _ _ _ _ he
        simp only [he, Option.map_some', Option.some.injEq, Prod.mk.injEq] at h
        simp only [List.length_cons] at this
        rw [← h.2]; omega

/-- A value that is read leaves less than it was given, at every depth. -/
theorem parseValue_consumes : ∀ d : Nat, Consumes (parseValue d) := by
  intro d
  induction d with
  | zero =>
    intro cs v r h
    cases cs with
    | nil => simp [parseValue] at h
    | cons c rest =>
      rw [parseValue] at h
      split at h
      · simp at h
      · exact parseScalar_length _ _ _ h
  | succ d ih =>
    intro cs v r h
    cases cs with
    | nil => simp [parseValue] at h
    | cons c rest =>
      rw [parseValue] at h
      simp only [List.length_cons]
      split at h
      · have := parseObject_length _ ih _ _ _ h
        omega
      · split at h
        · have := parseArray_length _ ih _ _ _ h
          omega
        · have := parseScalar_length _ _ _ h
          simp only [List.length_cons] at this
          exact this

/-- The bound `parseArray` gives `parseElems` is as good as any larger one. -/
theorem parseElems_bound (d n : Nat) (cs : List Char) (hn : cs.length < n) :
    parseElems (parseValue d) n cs = parseElems (parseValue d) (cs.length + 1) cs :=
  parseElems_fuel _ (parseValue_consumes d) n (cs.length + 1) cs hn (Nat.lt_succ_self _)

/-- The bound `parseObject` gives `parseMembers` is as good as any larger one. -/
theorem parseMembers_bound (d n : Nat) (cs : List Char) (hn : cs.length < n) :
    parseMembers (parseValue d) n cs = parseMembers (parseValue d) (cs.length + 1) cs :=
  parseMembers_fuel _ (parseValue_consumes d) n (cs.length + 1) cs hn (Nat.lt_succ_self _)

end json

/-! ## The decoder reads back what the encoder writes -/

namespace json

open user

theorem hexVal_hexDigit : ∀ n, n < 16 → hexVal (hexDigit n) = some n := by
  decide

theorem hexVal_zero : hexVal '0' = some 0 := by decide

theorem hexVal_two : hexVal '2' = some 2 := by decide

/-- The escape `\u00XX` of a code below 256 reads back as the code. -/
theorem getu4_low (n : Nat) (hn : n < 256) (rest : List Char) :
    getu4 ('0' :: '0' :: hexDigit (n / 16) :: hexDigit (n % 16) :: rest) = some (n, rest) := by
  have h1 := hexVal_hexDigit (n / 16) (by omega)
  have h2 := hexVal_hexDigit (n % 16) (by omega)
  simp only [getu4, hexVal_zero, h1, h2, Option.some.injEq, Prod.mk.injEq, and_true]
  omega

/-- The escape `\u202X` reads back as the code. -/
theorem getu4_sep (n : Nat) (hn : n = 0x2028 ∨ n = 0x2029) (rest : List Char) :
    getu4 ('2' :: '0' :: '2' :: hexDigit (n % 16) :: rest) = some (n, rest) := by
  have h2 := hexVal_hexDigit (n % 16) (by omega)
  simp only [getu4, hexVal_zero, hexVal_two, h2, Option.some.injEq, Prod.mk.injEq, and_true]
  omega

/-- Reading one escaped character back takes one step. -/
theorem unquote_escapeChar (c : Char) (n : Nat) (rest : List Char) :
    unquote (n + 1) (escapeChar c ++ rest) =
      (unquote n rest).map (fun p => (c :: p.1, p.2)) := by
  unfold escapeChar
  by_cases h1 : c = '"' ∨ c = '\\'
  · rcases h1 with h | h <;> subst h <;> simp [unquote, simpleEscape]
  · simp only [h1, if_false]
    have hq : c ≠ '"' := fun h => h1 (Or.inl h)
    have hb : c ≠ '\\' := fun h => h1 (Or.inr h)
    by_cases h2 : c = '\n'
    · subst h2; simp [unquote, simpleEscape]
    · simp only [h2, if_false]
      by_cases h3 : c = '\r'
      · subst h3; simp [unquote, simpleEscape]
      · simp only [h3, if_false]
        by_cases h4 : c = '\t'
        · subst h4; simp [unquote, simpleEscape]
        · simp only [h4, if_false]
          by_cases h5 : c.toNat < 0x20 ∨ c = '<' ∨ c = '>' ∨ c = '&'
          · simp only [h5, if_true]
            have hlt : c.toNat < 256 := by
              rcases h5 with h | h | h | h
              · omega
              · subst h; decide
              · subst h; decide
              · subst h; decide
            have hs : isSurrogate c.toNat = false := by
              simp only [isSurrogate, decide_eq_false_iff_not, not_and, not_lt]
              omega
            simp [unquote, getu4_low c.toNat hlt, hs, Char.ofNat_toNat]
          · simp only [h5, if_false]
            have hge : ¬ c.toNat < 0x20 := fun h => h5 (Or.inl h)
            by_cases h6 : c.toNat = 0x2028 ∨ c.toNat = 0x2029
            · simp only [h6, if_true]
              have hs : isSurrogate c.toNat = false := by
                simp only [isSurrogate, decide_eq_false_iff_not, not_and, not_lt]
                omega
              simp [unquote, getu4_sep c.toNat h6, hs, Char.ofNat_toNat]
            · simp only [h6, if_false]
              simp [unquote, hq, hb, hge]

/-- Reading an escaped string back, up to its closing quote. -/
theorem unquote_escape (cs : List Char) :
    ∀ (n : Nat) (rest : List Char), cs.length < n →
      unquote n (escape cs ++ '"' :: rest) = some (cs, rest) := by
  induction cs with
  | nil =>
    intro n rest hn
    obtain ⟨m, rfl⟩ : ∃ m, n = m + 1 := ⟨n - 1, by simp at hn; omega⟩
    simp [escape, unquote]
  | cons c cs ih =>
    intro n rest hn
    obtain ⟨m, rfl⟩ : ∃ m, n = m + 1 := ⟨n - 1, by omega⟩
    have hm : cs.length < m := by simp at hn; omega
    simp only [escape, List.append_assoc]
    rw [unquote_escapeChar, ih m rest hm]
    rfl

/-- The escaped text is at least as long as the string. -/
theorem length_escape (cs : List Char) : cs.length ≤ (escape cs).length := by
  induction cs with
  | nil => simp [escape]
  | cons c cs ih =>
    have hc : 1 ≤ (escapeChar c).length := by
      unfold escapeChar
      repeat' split
      all_goals simp
    simp only [escape, List.length_append, List.length_cons]
    omega

/-- A quoted string is a scalar the parser reads back. -/
theorem parseScalar_quoteThen (s : String) (rest : List Char) :
    parseScalar (quoteThen s rest) = some (Value.str s, rest) := by
  have hlen := length_escape s.data
  unfold quoteThen parseScalar
  simp only [if_true]
  rw [unquote_escape s.data _ rest (by simp only [List.length_append, List.length_cons]; omega)]
  rfl

/-- A quoted string is a value at any depth. -/
theorem parseValue_quoteThen (d : Nat) (s : String) (rest : List Char) :
    parseValue d (quoteThen s rest) = some (Value.str s, rest) := by
  have h := parseScalar_quoteThen s rest
  cases d with
  | zero =>
    unfold parseValue
    simp only [quoteThen] at h ⊢
    rw [if_neg (by decide)]
    exact h
  | succ d =>
    unfold parseValue
    simp only [quoteThen] at h ⊢
    rw [if_neg (by decide), if_neg (by decide)]
    exact h

/-- White space is not skipped before a quote. -/
theorem skipSpace_quoteThen (s : String) (rest : List Char) :
    skipSpace (quoteThen s rest) = quoteThen s rest := by
  unfold quoteThen skipSpace
  rw [if_neg (by decide)]

/-- A member followed by a comma: the parser reads it and goes on. -/
theorem parseMembers_comma (d n : Nat) (k v : String) (rest : List Char) :
    parseMembers (parseValue d) (n + 1) (memberThen k v (',' :: rest)) =
      (parseMembers (parseValue d) n (skipSpace rest)).map
        (fun p => ((k, Value.str v) :: p.1, p.2)) := by
  have hlen := length_escape k.data
  have hk := unquote_escape k.data ((escape k.data ++ '"' :: ':' :: quoteThen v (',' :: rest)).length + 1)
    (':' :: quoteThen v (',' :: rest))
    (by simp only [List.length_append, List.length_cons]; omega)
  unfold memberThen
  rw [quoteThen, parseMembers]
  simp only [if_true, hk]
  simp only [skipSpace, isSpace]
  rw [if_neg (by decide)]
  simp only [if_true, skipSpace_quoteThen, parseValue_quoteThen]
  simp only [skipSpace, isSpace]
  rw [if_neg (by decide)]
  simp

/-- The last member, followed by the closing brace. -/
theorem parseMembers_last (d n : Nat) (k v : String) (rest : List Char) :
    parseMembers (parseValue d) (n + 1) (memberThen k v ('}' :: rest)) =
      some ([(k, Value.str v)], rest) := by
  have hlen := length_escape k.data
  have hk := unquote_escape k.data ((escape k.data ++ '"' :: ':' :: quoteThen v ('}' :: rest)).length + 1)
    (':' :: quoteThen v ('}' :: rest))
    (by simp only [List.length_append, List.length_cons]; omega)
  unfold memberThen
  rw [quoteThen, parseMembers]
  simp only [if_true, hk]
  simp only [skipSpace, isSpace]
  rw [if_neg (by decide)]
  simp only [if_true, skipSpace_quoteThen, parseValue_quoteThen]
  simp only [skipSpace, isSpace]
  rw [if_neg (by decide)]
  simp

/-- White space is not skipped before a member. -/
theorem skipSpace_memberThen (k v : String) (rest : List Char) :
    skipSpace (memberThen k v rest) = memberThen k v rest :=
  skipSpace_quoteThen k _

/-- The text `Marshal` writes parses as the object of the three fields. -/
theorem parse_Marshal (u : User) :
    parse (Marshal u) = some (Value.obj
      [("email", Value.str u.Email), ("firstName", Value.str u.FirstName),
       ("lastName", Value.str u.LastName)]) := by
  unfold parse Marshal
  simp only [skipSpace, isSpace]
  rw [if_neg (by decide)]
  unfold maxNestingDepth parseValue
  simp only [if_true]
  unfold parseObject
  rw [skipSpace_memberThen]
  generalize hrest : (',' :: memberThen "firstName" u.FirstName
    (',' :: memberThen "lastName" u.LastName ['}'])) = rest
  have hlen : 2 ≤ (memberThen "email" u.Email rest).length := by
    simp only [memberThen, quoteThen, List.length_append, List.length_cons]
    omega
  obtain ⟨m, hm⟩ : ∃ m, (memberThen "email" u.Email rest).length = m + 2 :=
    ⟨(memberThen "email" u.Email rest).length - 2, by omega⟩
  subst hrest
  rw [memberThen, quoteThen]
  simp only []
  rw [if_neg (by decide)]
  rw [← quoteThen, ← memberThen, hm]
  rw [parseMembers_comma, skipSpace_memberThen, parseMembers_comma, skipSpace_memberThen,
    parseMembers_last]
  simp [skipSpace]

/-- Decoding the encoding of a user gives the user back. -/
theorem Unmarshal_Marshal (u : User) : Unmarshal (Marshal u) = .ok u := by
  unfold Unmarshal
  rw [parse_Marshal]
  have h1 : fieldByName "email" = some Field.email := by decide
  have h2 : fieldByName "firstName" = some Field.firstName := by decide
  have h3 : fieldByName "lastName" = some Field.lastName := by decide
  simp only [List.foldl_cons, List.foldl_nil, decodeMember, h1, h2, h3]
  simp [User.set, User.zero]

end json

/-! ## Lemmas on the library models -/

namespace user

open dynamodb dynamodbiface

theorem utf8ByteSize_go_pos (c : Char) (cs : List Char) :
    0 < String.utf8ByteSize.go (c :: cs) := by
  have h := Char.utf8Size_pos c
  simp only [String.utf8ByteSize.go]
  omega

theorem utf8ByteSize_ne_zero (s : String) : (s.utf8ByteSize != 0) = true ↔ s ≠ "" := by
  cases s with
  | mk cs =>
    cases cs with
    | nil => simp [String.utf8ByteSize, String.utf8ByteSize.go]
    | cons c cs =>
      have h := utf8ByteSize_go_pos c cs
      have hne : String.mk (c :: cs) ≠ "" := by
        intro h'
        have := congrArg String.data h'
        simp at this
      simp only [String.utf8ByteSize, bne_iff_ne, ne_eq, hne, not_false_eq_true, iff_true]
      omega

/-- What `FetchUser` leaves: the store as it was and one more call in the log. -/
theorem FetchUser_sys {σ : Type} (email t : String) (c : DynamoDBAPI σ) (w : Sys σ) :
    (FetchUser email t c w).2 =
      { store := w.store, calls := w.calls ++ [Call.GetItem (fetchInput email t)] } := by
  unfold FetchUser fetchInput
  simp only []
  split
  · rfl
  · split <;> rfl

/-- The result of `FetchUser` when the get and the decoding succeed. -/
theorem FetchUser_ok {σ : Type} (email t : String) (c : DynamoDBAPI σ) (w : Sys σ)
    (out : GetItemOutput) (cu : User)
    (hget : c.GetItem (fetchInput email t) w.store = .ok out)
    (hdec : dynamodbattribute.UnmarshalMap out.Item = .ok cu) :
    (FetchUser email t c w).1 = (some cu, none) := by
  unfold FetchUser
  unfold fetchInput at hget
  simp only [hget, hdec]

/-- The result of `FetchUser` when the get fails. -/
theorem FetchUser_get_error {σ : Type} (email t : String) (c : DynamoDBAPI σ) (w : Sys σ)
    (e : Error) (hget : c.GetItem (fetchInput email t) w.store = .error e) :
    (FetchUser email t c w).1 = (none, some ErrorFailedToFetchRecord) := by
  unfold FetchUser
  unfold fetchInput at hget
  simp only [hget]

/-- The result of `FetchUser` when the decoding of the item fails. -/
theorem FetchUser_decode_error {σ : Type} (email t : String) (c : DynamoDBAPI σ) (w : Sys σ)
    (out : GetItemOutput) (e : String)
    (hget : c.GetItem (fetchInput email t) w.store = .ok out)
    (hdec : dynamodbattribute.UnmarshalMap out.Item = .error e) :
    (FetchUser email t c w).1 = (none, some ErrorFailedToFetchRecord) := by
  unfold FetchUser
  unfold fetchInput at hget
  simp only [hget, hdec]

/-- The three outcomes of `FetchUser`. -/
theorem FetchUser_cases {σ : Type} (email t : String) (c : DynamoDBAPI σ) (w : Sys σ) :
    (∃ e, c.GetItem (fetchInput email t) w.store = .error e ∧
        (FetchUser email t c w).1 = (none, some ErrorFailedToFetchRecord)) ∨
    (∃ out e, c.GetItem (fetchInput email t) w.store = .ok out ∧
        dynamodbattribute.UnmarshalMap out.Item = .error e ∧
        (FetchUser email t c w).1 = (none, some ErrorFailedToFetchRecord)) ∨
    (∃ out cu, c.GetItem (fetchInput email t) w.store = .ok out ∧
        dynamodbattribute.UnmarshalMap out.Item = .ok cu ∧
        (FetchUser email t c w).1 = (some cu, none)) := by
  cases hget : c.GetItem (fetchInput email t) w.store with
  | error e => exact Or.inl ⟨e, rfl, FetchUser_get_error email t c w e hget⟩
  | ok out =>
    cases hdec : dynamodbattribute.UnmarshalMap out.Item with
    | error e =>
      exact Or.inr (Or.inl ⟨out, e, rfl, rfl.trans hdec, FetchUser_decode_error email t c w out e hget hdec⟩)
    | ok cu =>
      exact Or.inr (Or.inr ⟨out, cu, rfl, hdec, FetchUser_ok email t c w out cu hget hdec⟩)

/-- `MarshalMap` gives `userItem` and never fails. -/
theorem MarshalMap_eq (u : User) : dynamodbattribute.MarshalMap u = .ok (userItem u) := rfl

/-- `CreateUser` after a body that decodes, a valid email and a fetch that found no
user: the put decides. -/
theorem CreateUser_put {σ : Type} (IsEmailValid : String → Bool) (c : DynamoDBAPI σ)
    (w : Sys σ) (req : events.APIGatewayProxyRequest) (t : String) (u : User)
    (hbody : json.Unmarshal req.Body = .ok u)
    (hvalid : IsEmailValid u.Email = true)
    (hex : isExisting (FetchUser u.Email t c w).1.1 = false) :
    CreateUser IsEmailValid req t c w =
      (match (c.PutItem (putInput u t) w.store).1 with
        | .error _ => (none, some ErrorCouldNotDynamoPutItem)
        | .ok _ => (some u, none),
       { store := (c.PutItem (putInput u t) w.store).2,
         calls := w.calls ++ [Call.GetItem (fetchInput u.Email t), Call.PutItem (putInput u t)] }) := by
  unfold CreateUser
  simp only [hbody, hvalid, hex, FetchUser_sys, MarshalMap_eq]
  simp only [putInput, Bool.not_true, Bool.false_eq_true, if_false]
  generalize c.PutItem { Item := userItem u, TableName := t } w.store = r
  rcases r with ⟨_ | _, s1⟩ <;> simp

/-- `UpdateUser` after a body that decodes, a valid email and a fetch without
error: the put decides. -/
theorem UpdateUser_put {σ : Type} (IsEmailValid : String → Bool) (c : DynamoDBAPI σ)
    (w : Sys σ) (req : events.APIGatewayProxyRequest) (t : String) (u : User)
    (hbody : json.Unmarshal req.Body = .ok u)
    (hvalid : IsEmailValid u.Email = true)
    (herr : (FetchUser u.Email t c w).1.2 = none) :
    UpdateUser IsEmailValid req t c w =
      (match (c.PutItem (putInput u t) w.store).1 with
        | .error _ => (none, some ErrorCouldNotDynamoPutItem)
        | .ok _ => (some u, none),
       { store := (c.PutItem (putInput u t) w.store).2,
         calls := w.calls ++ [Call.GetItem (fetchInput u.Email t), Call.PutItem (putInput u t)] }) := by
  unfold UpdateUser
  simp only [hbody, hvalid, herr, FetchUser_sys, MarshalMap_eq]
  simp only [putInput, Bool.not_true, Bool.false_eq_true, if_false]
  generalize c.PutItem { Item := userItem u, TableName := t } w.store = r
  rcases r with ⟨_ | _, s1⟩ <;> simp

end user

namespace dynamodbattribute

open user dynamodb

/-- Decoding the encoding of a string into a field assigns the string. -/
theorem decodeAttr_encodeString (u : User) (f : Field) (s : String) :
    decodeAttr (.ok u) (f.tag, encodeString s) = .ok (u.set f s) := by
  have hf : fieldByName f.tag = some f := by cases f <;> decide
  unfold decodeAttr encodeString
  simp only [hf]
  by_cases hs : s = ""
  · simp [hs]
  · simp [hs]

/-- The decoding of the item of a user is the user. -/
theorem UnmarshalMap_userItem (u : User) : UnmarshalMap (userItem u) = .ok u := by
  have h1 := decodeAttr_encodeString User.zero Field.email u.Email
  have h2 := decodeAttr_encodeString (User.zero.set Field.email u.Email) Field.firstName u.FirstName
  have h3 := decodeAttr_encodeString
    ((User.zero.set Field.email u.Email).set Field.firstName u.FirstName) Field.lastName u.LastName
  simp only [Field.tag] at h1 h2 h3
  simp only [UnmarshalMap, userItem, List.foldl_cons, List.foldl_nil, h1, h2, h3]
  rfl

/-- The empty item decodes to the zero user. -/
theorem UnmarshalMap_nil : UnmarshalMap [] = .ok User.zero := rfl

end dynamodbattribute

namespace memstore

open user dynamodb dynamodbiface

/-- The key of the input `FetchUser` builds. -/
theorem keyEmail_fetchInput (e t : String) :
    keyEmail (fetchInput e t).Key = if e = "" then none else some e := by
  simp [fetchInput, keyEmail]

/-- A successful get is a get on a table that exists with a non-empty key. -/
theorem GetItem_ok_iff (e t : String) (s : Store) (out : GetItemOutput) :
    GetItem (fetchInput e t) s = .ok out ↔
      ∃ items, s t = some items ∧ e ≠ "" ∧ out = { Item := (items.find? (hasKey e)).getD [] } := by
  unfold GetItem
  rw [keyEmail_fetchInput]
  simp only [fetchInput]
  cases hs : s t with
  | none => simp
  | some items =>
    by_cases he : e = ""
    · simp [he]
    · simp only [he, if_false, Except.ok.injEq, ne_eq, not_false_eq_true, true_and,
        Option.some.injEq, exists_eq_left']
      exact eq_comm

/-- A get that succeeds without an item: the table exists, the key is not empty
and no item of the table has the key. -/
theorem GetItem_empty_iff (e t : String) (s : Store) :
    GetItem (fetchInput e t) s = .ok { Item := [] } ↔
      ∃ items, s t = some items ∧ e ≠ "" ∧ ∀ it ∈ items, hasKey e it = false := by
  rw [GetItem_ok_iff]
  constructor
  · rintro ⟨items, hs, he, h⟩
    refine ⟨items, hs, he, ?_⟩
    cases hf : List.find? (hasKey e) items with
    | none =>
      intro it hit
      have := List.find?_eq_none.1 hf it hit
      simpa using this
    | some it0 =>
      have hk : hasKey e it0 = true := List.find?_some hf
      simp only [hf, Option.getD_some, GetItemOutput.mk.injEq] at h
      rw [← h] at hk
      simp [hasKey, List.lookup] at hk
  · rintro ⟨items, hs, he, h⟩
    refine ⟨items, hs, he, ?_⟩
    have hf : List.find? (hasKey e) items = none :=
      List.find?_eq_none.2 (fun it hit => by simp [h it hit])
    rw [hf]
    rfl

/-- The key of the item of a user. -/
theorem itemKey_userItem (u : User) :
    itemKey (userItem u) = if u.Email = "" then none else some u.Email := by
  unfold itemKey userItem dynamodbattribute.encodeString
  by_cases he : u.Email = ""
  · simp [he, List.lookup]
  · simp [he, List.lookup]

/-- The item of a user has the key of the user when the email is not empty. -/
theorem hasKey_userItem (u : User) (e : String) (he : u.Email ≠ "") :
    hasKey e (userItem u) = decide (u.Email = e) := by
  unfold hasKey userItem dynamodbattribute.encodeString
  simp [he, List.lookup]

/-- Putting the item of a user in a table that exists, with a non-empty email. -/
theorem PutItem_userItem (u : User) (t : String) (s : Store) (items : List Item)
    (hs : s t = some items) (he : u.Email ≠ "") :
    PutItem (putInput u t) s =
      (.ok (), fun t1 => if t1 = t then
          some (userItem u :: items.filter (fun it => !hasKey u.Email it)) else s t1) := by
  unfold PutItem
  simp only [putInput, hs, itemKey_userItem, he, if_false]

/-- Getting the key of a user right after putting the user. -/
theorem GetItem_after_put (u : User) (t : String) (s : Store) (items : List Item)
    (hs : s t = some items) (he : u.Email ≠ "") :
    GetItem (fetchInput u.Email t) (PutItem (putInput u t) s).2 = .ok { Item := userItem u } := by
  rw [PutItem_userItem u t s items hs he]
  rw [GetItem_ok_iff]
  refine ⟨userItem u :: items.filter (fun it => !hasKey u.Email it), by simp, he, ?_⟩
  simp [List.find?, hasKey_userItem u u.Email he]

/-- Dropping the elements that satisfy `q` does not change the first element
that satisfies `p`, when no element satisfies both. -/
theorem find_filter_other {α : Type} (p q : α → Bool)
    (h : ∀ a, p a = true → q a = false) (l : List α) :
    List.find? p (l.filter (fun a => !q a)) = List.find? p l := by
  induction l with
  | nil => rfl
  | cons a rest ih =>
    by_cases hp : p a = true
    · simp [List.filter, h a hp, List.find?, hp]
    · simp only [Bool.not_eq_true] at hp
      by_cases hq : q a = true
      · simp only [List.filter, hq, Bool.not_true, List.find?, hp]
        exact ih
      · simp only [Bool.not_eq_true] at hq
        simp only [List.filter, hq, Bool.not_false, List.find?, hp]
        exact ih

/-- A get under another key or in another table does not see the put. -/
theorem GetItem_put_other (u : User) (t : String) (s : Store) (e1 t1 : String)
    (h : e1 ≠ u.Email ∨ t1 ≠ t) :
    GetItem (fetchInput e1 t1) (PutItem (putInput u t) s).2 = GetItem (fetchInput e1 t1) s := by
  cases hs : s t with
  | none => simp [PutItem, putInput, hs]
  | some items =>
    by_cases he : u.Email = ""
    · simp [PutItem, putInput, hs, itemKey_userItem, he]
    · rw [PutItem_userItem u t s items hs he]
      by_cases ht : t1 = t
      · subst ht
        have hne : e1 ≠ u.Email := by
          rcases h with h | h
          · exact h
          · exact absurd rfl h
        unfold GetItem
        simp only [fetchInput, if_true, hs]
        cases hk : keyEmail [("email", AttributeValue.S e1)] with
        | none => rfl
        | some k =>
          have hk1 : k = e1 := by
            have := keyEmail_fetchInput e1 t1
            simp only [fetchInput, hk] at this
            by_cases h0 : e1 = ""
            · simp [h0] at this
            · simp [h0] at this
              exact this
          subst hk1
          have hnew : hasKey k (userItem u) = false := by
            rw [hasKey_userItem u k he]
            simp [Ne.symm hne]
          have himp : ∀ it : Item, hasKey k it = true → hasKey u.Email it = false := by
            intro it hit
            unfold hasKey at hit ⊢
            simp only [decide_eq_true_eq] at hit
            simp only [hit, Option.some.injEq, AttributeValue.S.injEq, decide_eq_false_iff_not]
            exact hne
          have hfind := find_filter_other (hasKey k) (hasKey u.Email) himp items
          simp only [List.find?, hnew, hfind]
      · unfold GetItem
        simp only [fetchInput, ht, if_false]

end memstore

namespace memstore

open user dynamodb dynamodbiface

/-- The key of the input `DeleteUser` builds. -/
theorem keyEmail_deleteInput (e t : String) :
    keyEmail (deleteInput e t).Key = if e = "" then none else some e := by
  simp [deleteInput, keyEmail]

/-- A successful delete is a delete on a table that exists with a non-empty key;
it drops the items with the key and nothing else. -/
theorem DeleteItem_ok (e t : String) (s : Store)
    (h : (DeleteItem (deleteInput e t) s).1 = .ok ()) :
    ∃ items, s t = some items ∧ e ≠ "" ∧
      DeleteItem (deleteInput e t) s =
        (.ok (), fun t1 => if t1 = t then some (items.filter (fun it => !hasKey e it)) else s t1) := by
  unfold DeleteItem at h ⊢
  rw [keyEmail_deleteInput] at h ⊢
  simp only [deleteInput] at h ⊢
  cases hs : s t with
  | none => simp [hs] at h
  | some items =>
    by_cases he : e = ""
    · simp [hs, he] at h
    · exact ⟨items, rfl, he, by simp [he]⟩

/-- No element of a list filtered by the negation of `p` satisfies `p`. -/
theorem find_filter_not {α : Type} (p : α → Bool) (l : List α) :
    List.find? p (l.filter (fun a => !p a)) = none := by
  induction l with
  | nil => rfl
  | cons a rest ih =>
    by_cases hp : p a = true
    · simp only [List.filter, hp, Bool.not_true]
      exact ih
    · simp only [Bool.not_eq_true] at hp
      simp only [List.filter, hp, Bool.not_false, List.find?]
      exact ih

end memstore

/-! ## The claims -/

namespace user

open dynamodb dynamodbiface

/-- On a body that does not decode, `UpdateUser` answers with the message of the
invalid email and `CreateUser` with the message of the invalid data; neither
calls the store. -/
theorem undecodable_body {σ : Type} (IsEmailValid : String → Bool) (c : DynamoDBAPI σ)
    (w : Sys σ) (req : events.APIGatewayProxyRequest) (t : String) (e : json.Error)
    (hbody : json.Unmarshal req.Body = .error e) :
    UpdateUser IsEmailValid req t c w = ((none, some ErrorInvalidEmail), w) ∧
    CreateUser IsEmailValid req t c w = ((none, some ErrorInvalidUserData), w) := by
  unfold UpdateUser CreateUser
  simp only [hbody, and_self]

/-- C1, at the failing input: on the body `{"email":"a@b.com"` (the closing brace
is missing), which does not decode, `UpdateUser` returns no user and the error
"invalid email", not "invalid user data", which is what `CreateUser` returns for
the same body. -/
theorem UpdateUser_undecodable_body_reports_invalid_email :
    json.Unmarshal truncatedBody.Body = .error json.Error.syntaxError ∧
    (UpdateUser validators.IsEmailValid truncatedBody "users" memstore.client
        { store := memstore.usersTable [], calls := [] }).1 = (none, some "invalid email") ∧
    (CreateUser validators.IsEmailValid truncatedBody "users" memstore.client
        { store := memstore.usersTable [], calls := [] }).1 = (none, some "invalid user data") ∧
    ErrorInvalidEmail ≠ ErrorInvalidUserData := by
  have hbody : json.Unmarshal truncatedBody.Body = .error json.Error.syntaxError := by rfl
  have h := undecodable_body validators.IsEmailValid memstore.client
    { store := memstore.usersTable [], calls := [] } truncatedBody "users" _ hbody
  refine ⟨hbody, ?_, ?_, by decide⟩
  · rw [h.1]; rfl
  · rw [h.2]; rfl

/-- C2, amended: when the body decodes to a user with a valid email, the get for
that email succeeds and the item it returns decodes as a user record with a
non-empty email, then
`CreateUser` returns no user and the error "user already exists"; the only call
it has made is that get (no put) and the store is as it was. -/
theorem CreateUser_duplicate_rejected {σ : Type} (IsEmailValid : String → Bool)
    (c : DynamoDBAPI σ) (w : Sys σ) (req : events.APIGatewayProxyRequest) (t : String)
    (u cu : User) (out : GetItemOutput)
    (hbody : json.Unmarshal req.Body = .ok u)
    (hvalid : IsEmailValid u.Email = true)
    (hget : c.GetItem (fetchInput u.Email t) w.store = .ok out)
    (hdec : dynamodbattribute.UnmarshalMap out.Item = .ok cu)
    (hne : cu.Email ≠ "") :
    CreateUser IsEmailValid req t c w =
      ((none, some ErrorUserAlreadyExists),
       { store := w.store, calls := w.calls ++ [Call.GetItem (fetchInput u.Email t)] }) ∧
    ErrorUserAlreadyExists = "user already exists" := by
  refine ⟨?_, rfl⟩
  unfold CreateUser
  simp only [hbody, hvalid, FetchUser_sys, FetchUser_ok u.Email t c w out cu hget hdec,
    isExisting, (utf8ByteSize_ne_zero cu.Email).2 hne]
  simp

/-- C3: when the body decodes to a user whose email the validator rejects, both
`CreateUser` and `UpdateUser` return no user and the error "invalid email", and
leave the store and the log of calls as they were: no call is made on the client,
whatever it is. -/
theorem invalid_email_rejected_before_store {σ : Type} (IsEmailValid : String → Bool)
    (c : DynamoDBAPI σ) (w : Sys σ) (req : events.APIGatewayProxyRequest) (t : String)
    (u : User)
    (hbody : json.Unmarshal req.Body = .ok u)
    (hinvalid : IsEmailValid u.Email = false) :
    CreateUser IsEmailValid req t c w = ((none, some ErrorInvalidEmail), w) ∧
    UpdateUser IsEmailValid req t c w = ((none, some ErrorInvalidEmail), w) ∧
    ErrorInvalidEmail = "invalid email" := by
  unfold CreateUser UpdateUser
  simp [hbody, hinvalid, ErrorInvalidEmail]

/-- C5: when the body decodes to a user with a valid email and the fetch of the
existence check returns an error, `UpdateUser` returns no user and that very
error, which is "failed to fetch record"; the only call made is the get of the
fetch (no put) and the store is as it was. -/
theorem UpdateUser_propagates_fetch_error {σ : Type} (IsEmailValid : String → Bool)
    (c : DynamoDBAPI σ) (w : Sys σ) (req : events.APIGatewayProxyRequest) (t : String)
    (u : User) (err : String)
    (hbody : json.Unmarshal req.Body = .ok u)
    (hvalid : IsEmailValid u.Email = true)
    (hfetch : (FetchUser u.Email t c w).1.2 = some err) :
    UpdateUser IsEmailValid req t c w =
      ((none, some err),
       { store := w.store, calls := w.calls ++ [Call.GetItem (fetchInput u.Email t)] }) ∧
    err = "failed to fetch record" := by
  constructor
  · unfold UpdateUser
    simp only [hbody, hvalid, hfetch, FetchUser_sys]
    simp
  · rcases FetchUser_cases u.Email t c w with ⟨_, _, h⟩ | ⟨_, _, _, _, h⟩ | ⟨_, _, _, _, h⟩
    · rw [h] at hfetch
      simpa [ErrorFailedToFetchRecord] using hfetch.symm
    · rw [h] at hfetch
      simpa [ErrorFailedToFetchRecord] using hfetch.symm
    · rw [h] at hfetch
      simp at hfetch

/-- C6: when the body decodes to a user with a valid email and the fetch of the
existence check returns an error, `CreateUser` goes on to put the record: it
returns the user when the put succeeds and the error "could not DynamoDB put
item" when the put fails; in both cases the calls made are the get and the put,
and the store is the one the put left. Nothing is assumed of what is stored. -/
theorem CreateUser_ignores_fetch_error {σ : Type} (IsEmailValid : String → Bool)
    (c : DynamoDBAPI σ) (w : Sys σ) (req : events.APIGatewayProxyRequest) (t : String)
    (u : User) (err : String)
    (hbody : json.Unmarshal req.Body = .ok u)
    (hvalid : IsEmailValid u.Email = true)
    (hfetch : (FetchUser u.Email t c w).1.2 = some err) :
    (∀ s1, c.PutItem (putInput u t) w.store = (.ok (), s1) →
      CreateUser IsEmailValid req t c w =
        ((some u, none),
         { store := s1,
           calls := w.calls ++
             [Call.GetItem (fetchInput u.Email t), Call.PutItem (putInput u t)] })) ∧
    (∀ e s1, c.PutItem (putInput u t) w.store = (.error e, s1) →
      CreateUser IsEmailValid req t c w =
        ((none, some ErrorCouldNotDynamoPutItem),
         { store := s1,
           calls := w.calls ++
             [Call.GetItem (fetchInput u.Email t), Call.PutItem (putInput u t)] })) := by
  have hex : isExisting (FetchUser u.Email t c w).1.1 = false := by
    rcases FetchUser_cases u.Email t c w with ⟨_, _, h⟩ | ⟨_, _, _, _, h⟩ | ⟨_, _, _, _, h⟩
    · rw [h]; rfl
    · rw [h]; rfl
    · rw [h] at hfetch
      simp at hfetch
  have hput := CreateUser_put IsEmailValid c w req t u hbody hvalid hex
  constructor
  · intro s1 h
    rw [hput, h]
  · intro e s1 h
    rw [hput, h]

/-- C9: when the get succeeds and returns no item (no record has the email),
`FetchUser` returns no error and a user that is not nil, zero-valued, with an
empty email; and whenever `FetchUser` returns an error, the error is "failed to
fetch record", no user is returned, and either the get failed or the item it
returned did not decode. -/
theorem FetchUser_missing_record_and_errors {σ : Type} (c : DynamoDBAPI σ) (w : Sys σ)
    (email t : String) :
    (c.GetItem (fetchInput email t) w.store = .ok { Item := [] } →
      (FetchUser email t c w).1 = (some User.zero, none) ∧ User.zero.Email = "") ∧
    (∀ err, (FetchUser email t c w).1.2 = some err →
      err = "failed to fetch record" ∧ (FetchUser email t c w).1.1 = none ∧
      ((∃ e, c.GetItem (fetchInput email t) w.store = .error e) ∨
       (∃ out e, c.GetItem (fetchInput email t) w.store = .ok out ∧
          dynamodbattribute.UnmarshalMap out.Item = .error e))) := by
  constructor
  · intro hget
    exact ⟨FetchUser_ok email t c w _ User.zero hget rfl, rfl⟩
  · intro err herr
    rcases FetchUser_cases email t c w with ⟨e, hg, h⟩ | ⟨out, e, hg, hd, h⟩ | ⟨_, _, _, _, h⟩
    · rw [h] at herr ⊢
      refine ⟨?_, rfl, Or.inl ⟨e, hg⟩⟩
      simpa [ErrorFailedToFetchRecord] using herr.symm
    · rw [h] at herr ⊢
      refine ⟨?_, rfl, Or.inr ⟨out, e, hg, hd⟩⟩
      simpa [ErrorFailedToFetchRecord] using herr.symm
    · rw [h] at herr
      simp at herr

end user

namespace user

open dynamodb dynamodbiface

/-- The zero user counts as no existing user. -/
theorem isExisting_zero : isExisting (some User.zero) = false := by decide

/-- The errors `FetchUser` can return. -/
theorem FetchUser_error_mem {σ : Type} (email t : String) (c : DynamoDBAPI σ) (w : Sys σ) :
    (FetchUser email t c w).1.2 = none ∨
    (FetchUser email t c w).1.2 = some ErrorFailedToFetchRecord := by
  rcases FetchUser_cases email t c w with ⟨_, _, h⟩ | ⟨_, _, _, _, h⟩ | ⟨_, _, _, _, h⟩ <;>
    rw [h] <;> simp

/-- The errors `FetchUsers` can return. -/
theorem FetchUsers_error_mem {σ : Type} (t : String) (c : DynamoDBAPI σ) (w : Sys σ) :
    ∀ err, (FetchUsers t c w).1.2 = some err →
      err ∈ [ErrorFailedToFetchRecord, ErrorFailedToUnmarshalRecord] := by
  intro err h
  unfold FetchUsers at h
  simp only [] at h
  repeat' split at h
  all_goals simp_all

/-- The errors `CreateUser` can return. -/
theorem CreateUser_error_mem {σ : Type} (IsEmailValid : String → Bool)
    (req : events.APIGatewayProxyRequest) (t : String) (c : DynamoDBAPI σ) (w : Sys σ) :
    ∀ err, (CreateUser IsEmailValid req t c w).1.2 = some err →
      err ∈ [ErrorInvalidUserData, ErrorInvalidEmail, ErrorUserAlreadyExists,
        ErrorCouldNotMarshalItem, ErrorCouldNotDynamoPutItem] := by
  intro err h
  unfold CreateUser at h
  simp only [MarshalMap_eq] at h
  repeat' split at h
  all_goals simp_all

/-- The errors `UpdateUser` can return. -/
theorem UpdateUser_error_mem {σ : Type} (IsEmailValid : String → Bool)
    (req : events.APIGatewayProxyRequest) (t : String) (c : DynamoDBAPI σ) (w : Sys σ) :
    ∀ err, (UpdateUser IsEmailValid req t c w).1.2 = some err →
      err ∈ [ErrorInvalidEmail, ErrorFailedToFetchRecord,
        ErrorCouldNotMarshalItem, ErrorCouldNotDynamoPutItem] := by
  intro err h
  unfold UpdateUser at h
  simp only [MarshalMap_eq] at h
  split at h
  · simp_all
  · rename_i u hu
    split at h
    · simp_all
    · rcases FetchUser_error_mem u.Email t c w with hf | hf
      · simp only [hf] at h
        split at h <;> simp_all
      · simp only [hf] at h
        simp_all

/-- The errors `DeleteUser` can return. -/
theorem DeleteUser_error_mem {σ : Type} (req : events.APIGatewayProxyRequest) (t : String)
    (c : DynamoDBAPI σ) (w : Sys σ) :
    (DeleteUser req t c w).1 = none ∨ (DeleteUser req t c w).1 = some ErrorCouldNotDeleteItem := by
  unfold DeleteUser
  simp only []
  split <;> simp

/-- `DeleteUser` in terms of the one call it makes. -/
theorem DeleteUser_eq {σ : Type} (req : events.APIGatewayProxyRequest) (t : String)
    (c : DynamoDBAPI σ) (w : Sys σ) :
    DeleteUser req t c w =
      (match (c.DeleteItem (deleteInput (mapIndex req.QueryStringParameters "email") t)
          w.store).1 with
        | .error _ => some ErrorCouldNotDeleteItem
        | .ok _ => none,
       { store := (c.DeleteItem (deleteInput (mapIndex req.QueryStringParameters "email") t)
           w.store).2,
         calls := w.calls ++
           [Call.DeleteItem (deleteInput (mapIndex req.QueryStringParameters "email") t)] }) := by
  unfold DeleteUser deleteInput
  simp only []
  split <;> rename_i h <;> simp [h]

/-- C4: in the in-memory store, for a user `u` with a valid email for which the
get succeeds and finds no record, `CreateUser` on the JSON encoding of `u` returns
`u` and no error, and `FetchUser` of `u.Email` on the store it leaves returns,
without error, the user `u`: the same email, first name and last name. -/
theorem create_then_fetch_round_trip (IsEmailValid : String → Bool) (s : memstore.Store)
    (calls : List Call) (t : String) (qs : List (String × String)) (u : User)
    (hvalid : IsEmailValid u.Email = true)
    (habsent : memstore.client.GetItem (fetchInput u.Email t) s = .ok { Item := [] }) :
    (CreateUser IsEmailValid { Body := json.Marshal u, QueryStringParameters := qs } t
        memstore.client { store := s, calls := calls }).1 = (some u, none) ∧
    (FetchUser u.Email t memstore.client
        (CreateUser IsEmailValid { Body := json.Marshal u, QueryStringParameters := qs } t
          memstore.client { store := s, calls := calls }).2).1 = (some u, none) := by
  obtain ⟨items, hs, he, -⟩ := (memstore.GetItem_ok_iff u.Email t s _).1 habsent
  have hfetch : (FetchUser u.Email t memstore.client { store := s, calls := calls }).1 =
      (some User.zero, none) :=
    FetchUser_ok u.Email t memstore.client _ _ User.zero habsent rfl
  have hex : isExisting (FetchUser u.Email t memstore.client
      { store := s, calls := calls }).1.1 = false := by
    rw [hfetch]; exact isExisting_zero
  have hput := CreateUser_put IsEmailValid memstore.client { store := s, calls := calls }
    { Body := json.Marshal u, QueryStringParameters := qs } t u
    (json.Unmarshal_Marshal u) hvalid hex
  have hp : memstore.client.PutItem (putInput u t) s = memstore.PutItem (putInput u t) s := rfl
  have hres := memstore.PutItem_userItem u t s items hs he
  rw [hput]
  simp only [hp]
  constructor
  · rw [hres]
  · exact FetchUser_ok u.Email t memstore.client _ _ u
      (memstore.GetItem_after_put u t s items hs he) (dynamodbattribute.UnmarshalMap_userItem u)

/-- C7: in the in-memory store, when the delete call for the email of the request
succeeds, `DeleteUser` returns no error, whether or not a record with the email
is stored; called again on the store it leaves it returns no error again; after
the first call no record has the email (the get returns no item); and the store
after the second call is the store after the first. -/
theorem DeleteUser_idempotent (s : memstore.Store) (calls : List Call) (t : String)
    (req : events.APIGatewayProxyRequest)
    (hdel : (memstore.client.DeleteItem
      (deleteInput (mapIndex req.QueryStringParameters "email") t) s).1 = .ok ()) :
    (DeleteUser req t memstore.client { store := s, calls := calls }).1 = none ∧
    (DeleteUser req t memstore.client
      (DeleteUser req t memstore.client { store := s, calls := calls }).2).1 = none ∧
    memstore.client.GetItem (fetchInput (mapIndex req.QueryStringParameters "email") t)
      (DeleteUser req t memstore.client { store := s, calls := calls }).2.store =
        .ok { Item := [] } ∧
    (DeleteUser req t memstore.client
      (DeleteUser req t memstore.client { store := s, calls := calls }).2).2.store =
      (DeleteUser req t memstore.client { store := s, calls := calls }).2.store := by
  obtain ⟨items, hs, he, h1⟩ := memstore.DeleteItem_ok _ t s hdel
  have hd : ∀ e s0, memstore.client.DeleteItem (deleteInput e t) s0 =
      memstore.DeleteItem (deleteInput e t) s0 := fun _ _ => rfl
  have hfirst := DeleteUser_eq req t memstore.client { store := s, calls := calls }
  simp only [hd, h1] at hfirst
  have hs2 : (fun t1 => if t1 = t then
      some (items.filter (fun it => !memstore.hasKey
        (mapIndex req.QueryStringParameters "email") it)) else s t1) t =
      some (items.filter (fun it => !memstore.hasKey
        (mapIndex req.QueryStringParameters "email") it)) := by
    simp
  have hsecond := DeleteUser_eq req t memstore.client
    (DeleteUser req t memstore.client { store := s, calls := calls }).2
  rw [hfirst] at hsecond ⊢
  simp only [hd] at hsecond
  have h2 : memstore.DeleteItem (deleteInput (mapIndex req.QueryStringParameters "email") t)
      (fun t1 => if t1 = t then
        some (items.filter (fun it => !memstore.hasKey
          (mapIndex req.QueryStringParameters "email") it)) else s t1) =
      (.ok (), fun t1 => if t1 = t then
        some (items.filter (fun it => !memstore.hasKey
          (mapIndex req.QueryStringParameters "email") it)) else s t1) := by
    unfold memstore.DeleteItem
    rw [memstore.keyEmail_deleteInput]
    simp only [deleteInput, if_true, he, if_false, Prod.mk.injEq, true_and]
    funext t1
    by_cases ht : t1 = t
    · simp [ht, List.filter_filter]
    · simp [ht]
  rw [h2] at hsecond
  rw [hsecond]
  refine ⟨rfl, rfl, ?_, rfl⟩
  show memstore.GetItem _ _ = _
  rw [memstore.GetItem_ok_iff]
  exact ⟨_, hs2, he, by rw [memstore.find_filter_not]; rfl⟩

/-- C8, amended: in the in-memory store, when the store holds a record with the
email of the body that decodes as a user record (the get succeeds and its item
decodes to a record with that email) and
the body decodes to a user `u` with a valid email, `UpdateUser` returns `u` and no
error, a following `FetchUser` of the email returns exactly `u`, so the first and
last name of the body and nothing of the prior record, and the gets under any
other email or in any other table answer as before. -/
theorem UpdateUser_full_replace (IsEmailValid : String → Bool) (s : memstore.Store)
    (calls : List Call) (t : String) (req : events.APIGatewayProxyRequest)
    (u prior : User) (item : Item)
    (hbody : json.Unmarshal req.Body = .ok u)
    (hvalid : IsEmailValid u.Email = true)
    (hget : memstore.client.GetItem (fetchInput u.Email t) s = .ok { Item := item })
    (hdec : dynamodbattribute.UnmarshalMap item = .ok prior)
    (_hheld : prior.Email = u.Email) :
    (UpdateUser IsEmailValid req t memstore.client { store := s, calls := calls }).1 =
      (some u, none) ∧
    (FetchUser u.Email t memstore.client
      (UpdateUser IsEmailValid req t memstore.client { store := s, calls := calls }).2).1 =
      (some u, none) ∧
    (∀ e1 t1, e1 ≠ u.Email ∨ t1 ≠ t →
      memstore.client.GetItem (fetchInput e1 t1)
        (UpdateUser IsEmailValid req t memstore.client { store := s, calls := calls }).2.store =
      memstore.client.GetItem (fetchInput e1 t1) s) := by
  obtain ⟨items, hs, he, -⟩ := (memstore.GetItem_ok_iff u.Email t s _).1 hget
  have hfetch : (FetchUser u.Email t memstore.client { store := s, calls := calls }).1 =
      (some prior, none) :=
    FetchUser_ok u.Email t memstore.client _ _ prior hget hdec
  have herr : (FetchUser u.Email t memstore.client
      { store := s, calls := calls }).1.2 = none := by
    rw [hfetch]
  have hput := UpdateUser_put IsEmailValid memstore.client { store := s, calls := calls }
    req t u hbody hvalid herr
  have hp : memstore.client.PutItem (putInput u t) s = memstore.PutItem (putInput u t) s := rfl
  have hres := memstore.PutItem_userItem u t s items hs he
  rw [hput]
  simp only [hp]
  refine ⟨by rw [hres], ?_, ?_⟩
  · exact FetchUser_ok u.Email t memstore.client _ _ u
      (memstore.GetItem_after_put u t s items hs he) (dynamodbattribute.UnmarshalMap_userItem u)
  · intro e1 t1 h
    exact memstore.GetItem_put_other u t s e1 t1 h

/-- C10: `UpdateUser` is an upsert. When the body decodes to a user `u` with a
valid email, the get for the email succeeds and finds no record, and the put
succeeds, `UpdateUser` returns `u` and no error after the get and the put of the
item of `u`; in the in-memory store the record, absent before, is there after.
And no operation, on any input and any store, returns the error "user does not
exist". -/
theorem UpdateUser_upserts_missing_user {σ : Type} (IsEmailValid : String → Bool)
    (c : DynamoDBAPI σ) (w : Sys σ) (req : events.APIGatewayProxyRequest) (t : String)
    (u : User) (s1 : σ)
    (hbody : json.Unmarshal req.Body = .ok u)
    (hvalid : IsEmailValid u.Email = true)
    (habsent : c.GetItem (fetchInput u.Email t) w.store = .ok { Item := [] })
    (hput : c.PutItem (putInput u t) w.store = (.ok (), s1)) :
    UpdateUser IsEmailValid req t c w =
      ((some u, none),
       { store := s1,
         calls := w.calls ++
           [Call.GetItem (fetchInput u.Email t), Call.PutItem (putInput u t)] }) ∧
    (∀ (s : memstore.Store) (calls : List Call),
      memstore.client.GetItem (fetchInput u.Email t) s = .ok { Item := [] } →
      memstore.client.GetItem (fetchInput u.Email t)
        (UpdateUser IsEmailValid req t memstore.client { store := s, calls := calls }).2.store =
        .ok { Item := userItem u }) ∧
    (∀ (τ : Type) (c1 : DynamoDBAPI τ) (w1 : Sys τ) (valid : String → Bool)
      (r : events.APIGatewayProxyRequest) (e t1 : String),
      (FetchUser e t1 c1 w1).1.2 ≠ some "user does not exist" ∧
      (FetchUsers t1 c1 w1).1.2 ≠ some "user does not exist" ∧
      (CreateUser valid r t1 c1 w1).1.2 ≠ some "user does not exist" ∧
      (UpdateUser valid r t1 c1 w1).1.2 ≠ some "user does not exist" ∧
      (DeleteUser r t1 c1 w1).1 ≠ some "user does not exist") ∧
    ErrorUserDoNotExist = "user does not exist" := by
  have hup : ∀ {τ : Type} (c1 : DynamoDBAPI τ) (w1 : Sys τ),
      c1.GetItem (fetchInput u.Email t) w1.store = .ok { Item := [] } →
      UpdateUser IsEmailValid req t c1 w1 =
        (match (c1.PutItem (putInput u t) w1.store).1 with
          | .error _ => (none, some ErrorCouldNotDynamoPutItem)
          | .ok _ => (some u, none),
         { store := (c1.PutItem (putInput u t) w1.store).2,
           calls := w1.calls ++
             [Call.GetItem (fetchInput u.Email t), Call.PutItem (putInput u t)] }) := by
    intro τ c1 w1 h
    have hfetch : (FetchUser u.Email t c1 w1).1 = (some User.zero, none) :=
      FetchUser_ok u.Email t c1 w1 _ User.zero h rfl
    exact UpdateUser_put IsEmailValid c1 w1 req t u hbody hvalid (by rw [hfetch])
  refine ⟨?_, ?_, ?_, rfl⟩
  · rw [hup c w habsent, hput]
  · intro s calls h
    obtain ⟨items, hs, he, -⟩ := (memstore.GetItem_ok_iff u.Email t s _).1 h
    rw [hup memstore.client { store := s, calls := calls } h]
    exact memstore.GetItem_after_put u t s items hs he
  · intro τ c1 w1 valid r e t1
    refine ⟨?_, ?_, ?_, ?_, ?_⟩
    · rcases FetchUser_error_mem e t1 c1 w1 with h | h <;> rw [h] <;> decide
    · intro h
      have := FetchUsers_error_mem t1 c1 w1 _ h
      revert this
      decide
    · intro h
      have := CreateUser_error_mem valid r t1 c1 w1 _ h
      revert this
      decide
    · intro h
      have := UpdateUser_error_mem valid r t1 c1 w1 _ h
      revert this
      decide
    · rcases DeleteUser_error_mem r t1 c1 w1 with h | h <;> rw [h] <;> decide

end user

/-! ## The theorems at concrete inputs -/

namespace sample

open dynamodb dynamodbiface user

/-- C2 at a concrete input: creating `a@b.com` on a table that holds a record
under `a@b.com` is refused after the one get. -/
theorem CreateUser_duplicate_rejected_witness :
    CreateUser validators.IsEmailValid requestAB "users" memstore.client
        { store := memstore.usersTable [storedOld], calls := [] } =
      ((none, some ErrorUserAlreadyExists),
       { store := memstore.usersTable [storedOld],
         calls := [] ++ [Call.GetItem (fetchInput userAB.Email "users")] }) ∧
    ErrorUserAlreadyExists = "user already exists" :=
  CreateUser_duplicate_rejected validators.IsEmailValid memstore.client
    { store := memstore.usersTable [storedOld], calls := [] } requestAB "users" userAB
    { Email := "a@b.com", FirstName := "Old", LastName := "Name" } { Item := storedOld }
    (by rfl) (by rfl) (by rfl) (by rfl) (by decide)

/-- C3 at a concrete input: a body without email field is refused by both
operations with no call on the store. -/
theorem invalid_email_rejected_before_store_witness :
    CreateUser validators.IsEmailValid requestNoEmail "users" memstore.client
        { store := memstore.usersTable [storedOld], calls := [] } =
      ((none, some ErrorInvalidEmail),
       { store := memstore.usersTable [storedOld], calls := [] }) ∧
    UpdateUser validators.IsEmailValid requestNoEmail "users" memstore.client
        { store := memstore.usersTable [storedOld], calls := [] } =
      ((none, some ErrorInvalidEmail),
       { store := memstore.usersTable [storedOld], calls := [] }) ∧
    ErrorInvalidEmail = "invalid email" :=
  invalid_email_rejected_before_store validators.IsEmailValid memstore.client
    { store := memstore.usersTable [storedOld], calls := [] } requestNoEmail "users"
    { Email := "", FirstName := "A", LastName := "" } (by rfl) (by rfl)

/-- C4 at the input of the spec: creating `{a@b.com, A, B}` on an empty table and
fetching `a@b.com` gives the same record. -/
theorem create_then_fetch_round_trip_witness :
    (CreateUser validators.IsEmailValid
        { Body := json.Marshal userAB, QueryStringParameters := [] } "users"
        memstore.client { store := memstore.usersTable [], calls := [] }).1 =
      (some userAB, none) ∧
    (FetchUser userAB.Email "users" memstore.client
        (CreateUser validators.IsEmailValid
          { Body := json.Marshal userAB, QueryStringParameters := [] } "users"
          memstore.client { store := memstore.usersTable [], calls := [] }).2).1 =
      (some userAB, none) :=
  create_then_fetch_round_trip validators.IsEmailValid (memstore.usersTable []) [] "users" []
    userAB (by rfl) (by rfl)

/-- C5 at a concrete input: on a store without tables the fetch fails and
`UpdateUser` returns its error after the one get. -/
theorem UpdateUser_propagates_fetch_error_witness :
    UpdateUser validators.IsEmailValid requestAB "users" memstore.client
        { store := noTables, calls := [] } =
      ((none, some "failed to fetch record"),
       { store := noTables, calls := [] ++ [Call.GetItem (fetchInput userAB.Email "users")] }) ∧
    "failed to fetch record" = "failed to fetch record" :=
  UpdateUser_propagates_fetch_error validators.IsEmailValid memstore.client
    { store := noTables, calls := [] } requestAB "users" userAB "failed to fetch record"
    (by rfl) (by rfl) (by rfl)

/-- C6 at a concrete input: the table holds an item under `a@b.com` that does not
decode, so the fetch of the existence check fails; `CreateUser` puts the record
all the same and returns the user. -/
theorem CreateUser_ignores_fetch_error_witness :
    CreateUser validators.IsEmailValid requestAB "users" memstore.client
        { store := memstore.usersTable [storedBroken], calls := [] } =
      ((some userAB, none),
       { store := (memstore.PutItem (putInput userAB "users")
           (memstore.usersTable [storedBroken])).2,
         calls := [] ++
           [Call.GetItem (fetchInput userAB.Email "users"),
            Call.PutItem (putInput userAB "users")] }) :=
  (CreateUser_ignores_fetch_error validators.IsEmailValid memstore.client
    { store := memstore.usersTable [storedBroken], calls := [] } requestAB "users" userAB
    "failed to fetch record" (by rfl) (by rfl) (by rfl)).1 _ (by rfl)

/-- C7 at a concrete input: deleting `a@b.com` twice from a table that holds it. -/
theorem DeleteUser_idempotent_witness :
    (DeleteUser requestDelete "users" memstore.client
      { store := memstore.usersTable [storedOld, storedOther], calls := [] }).1 = none ∧
    (DeleteUser requestDelete "users" memstore.client
      (DeleteUser requestDelete "users" memstore.client
        { store := memstore.usersTable [storedOld, storedOther], calls := [] }).2).1 = none ∧
    memstore.client.GetItem
      (fetchInput (mapIndex requestDelete.QueryStringParameters "email") "users")
      (DeleteUser requestDelete "users" memstore.client
        { store := memstore.usersTable [storedOld, storedOther], calls := [] }).2.store =
        .ok { Item := [] } ∧
    (DeleteUser requestDelete "users" memstore.client
      (DeleteUser requestDelete "users" memstore.client
        { store := memstore.usersTable [storedOld, storedOther], calls := [] }).2).2.store =
      (DeleteUser requestDelete "users" memstore.client
        { store := memstore.usersTable [storedOld, storedOther], calls := [] }).2.store :=
  DeleteUser_idempotent (memstore.usersTable [storedOld, storedOther]) [] "users"
    requestDelete (by rfl)

/-- C8 at a concrete input: the body has no last name; after the update the
record under `a@b.com` has the first name of the body and an empty last name,
and the record under `c@d.org` is as before. -/
theorem UpdateUser_full_replace_witness :
    (UpdateUser validators.IsEmailValid requestFirstOnly "users" memstore.client
      { store := memstore.usersTable [storedOld, storedOther], calls := [] }).1 =
      (some { Email := "a@b.com", FirstName := "New", LastName := "" }, none) ∧
    (FetchUser "a@b.com" "users" memstore.client
      (UpdateUser validators.IsEmailValid requestFirstOnly "users" memstore.client
        { store := memstore.usersTable [storedOld, storedOther], calls := [] }).2).1 =
      (some { Email := "a@b.com", FirstName := "New", LastName := "" }, none) ∧
    memstore.client.GetItem (fetchInput "c@d.org" "users")
      (UpdateUser validators.IsEmailValid requestFirstOnly "users" memstore.client
        { store := memstore.usersTable [storedOld, storedOther], calls := [] }).2.store =
      memstore.client.GetItem (fetchInput "c@d.org" "users")
        (memstore.usersTable [storedOld, storedOther]) :=
  have h := UpdateUser_full_replace validators.IsEmailValid
    (memstore.usersTable [storedOld, storedOther]) [] "users" requestFirstOnly
    { Email := "a@b.com", FirstName := "New", LastName := "" }
    { Email := "a@b.com", FirstName := "Old", LastName := "Name" } storedOld
    (by rfl) (by rfl) (by rfl) (by rfl) (by rfl)
  ⟨h.1, h.2.1, h.2.2 "c@d.org" "users" (Or.inl (by decide))⟩

/-- C9 at a concrete input: fetching from an empty table gives the zero user and
no error. -/
theorem FetchUser_missing_record_and_errors_witness :
    (FetchUser "a@b.com" "users" memstore.client
      { store := memstore.usersTable [], calls := [] }).1 = (some User.zero, none) ∧
    User.zero.Email = "" :=
  (FetchUser_missing_record_and_errors memstore.client
    { store := memstore.usersTable [], calls := [] } "a@b.com" "users").1 (by rfl)

/-- C10 at a concrete input: updating `a@b.com` on an empty table succeeds after
a get and a put. -/
theorem UpdateUser_upserts_missing_user_witness :
    UpdateUser validators.IsEmailValid requestAB "users" memstore.client
        { store := memstore.usersTable [], calls := [] } =
      ((some userAB, none),
       { store := (memstore.PutItem (putInput userAB "users") (memstore.usersTable [])).2,
         calls := [] ++
           [Call.GetItem (fetchInput userAB.Email "users"),
            Call.PutItem (putInput userAB "users")] }) :=
  (UpdateUser_upserts_missing_user validators.IsEmailValid memstore.client
    { store := memstore.usersTable [], calls := [] } requestAB "users" userAB _
    (by rfl) (by rfl) (by rfl) (by rfl)).1

end sample

/-! ## Where the decoding of the stored item matters -/

namespace sample

open dynamodb dynamodbiface user

/-- C2 as first stated fails: the table holds, under `a@b.com`, an item whose
email is the non-empty string `a@b.com` and whose first name is a boolean. The
body decodes, its email is valid, and the get for the email succeeds and returns
that item; but the item does not decode as a user, so `FetchUser` returns nil and
`CreateUser` does not answer "user already exists": it puts the record and
returns the user, and the stored item is replaced. -/
theorem CreateUser_duplicate_undecodable_counterexample :
    json.Unmarshal requestAB.Body = .ok userAB ∧
    validators.IsEmailValid userAB.Email = true ∧
    memstore.client.GetItem (fetchInput userAB.Email "users")
      (memstore.usersTable [storedBroken]) = .ok { Item := storedBroken } ∧
    storedBroken.lookup "email" = some (AttributeValue.S "a@b.com") ∧
    CreateUser validators.IsEmailValid requestAB "users" memstore.client
        { store := memstore.usersTable [storedBroken], calls := [] } =
      ((some userAB, none),
       { store := (memstore.PutItem (putInput userAB "users")
           (memstore.usersTable [storedBroken])).2,
         calls := [Call.GetItem (fetchInput userAB.Email "users"),
                   Call.PutItem (putInput userAB "users")] }) ∧
    (CreateUser validators.IsEmailValid requestAB "users" memstore.client
        { store := memstore.usersTable [storedBroken], calls := [] }).1 ≠
      (none, some ErrorUserAlreadyExists) ∧
    memstore.client.GetItem (fetchInput userAB.Email "users")
      (CreateUser validators.IsEmailValid requestAB "users" memstore.client
        { store := memstore.usersTable [storedBroken], calls := [] }).2.store =
      .ok { Item := userItem userAB } := by
  have hrun : CreateUser validators.IsEmailValid requestAB "users" memstore.client
        { store := memstore.usersTable [storedBroken], calls := [] } =
      ((some userAB, none),
       { store := (memstore.PutItem (putInput userAB "users")
           (memstore.usersTable [storedBroken])).2,
         calls := [Call.GetItem (fetchInput userAB.Email "users"),
                   Call.PutItem (putInput userAB "users")] }) := by
    rfl
  refine ⟨by rfl, by rfl, by rfl, by rfl, hrun, ?_, ?_⟩
  · rw [hrun]
    decide
  · rw [hrun]
    rfl

/-- C8 as first stated fails: the table holds, under `a@b.com`, an item whose
email is `a@b.com` and whose first name is a boolean. The body decodes to a user
with the same, valid email; the get succeeds and returns the item, and the put
of the user on this store would succeed; but the item does not decode as a user,
so the existence check fails and `UpdateUser` returns no user and the error
"failed to fetch record" after the one get, leaving the stored item as it was. -/
theorem UpdateUser_replace_undecodable_counterexample :
    json.Unmarshal requestAB.Body = .ok userAB ∧
    validators.IsEmailValid userAB.Email = true ∧
    memstore.client.GetItem (fetchInput userAB.Email "users")
      (memstore.usersTable [storedBroken]) = .ok { Item := storedBroken } ∧
    storedBroken.lookup "email" = some (AttributeValue.S "a@b.com") ∧
    (memstore.client.PutItem (putInput userAB "users")
      (memstore.usersTable [storedBroken])).1 = .ok () ∧
    UpdateUser validators.IsEmailValid requestAB "users" memstore.client
        { store := memstore.usersTable [storedBroken], calls := [] } =
      ((none, some "failed to fetch record"),
       { store := memstore.usersTable [storedBroken],
         calls := [Call.GetItem (fetchInput userAB.Email "users")] }) ∧
    (UpdateUser validators.IsEmailValid requestAB "users" memstore.client
        { store := memstore.usersTable [storedBroken], calls := [] }).1 ≠
      (some userAB, none) ∧
    (FetchUser userAB.Email "users" memstore.client
      (UpdateUser validators.IsEmailValid requestAB "users" memstore.client
        { store := memstore.usersTable [storedBroken], calls := [] }).2).1 ≠
      (some userAB, none) := by
  have hrun : UpdateUser validators.IsEmailValid requestAB "users" memstore.client
        { store := memstore.usersTable [storedBroken], calls := [] } =
      ((none, some "failed to fetch record"),
       { store := memstore.usersTable [storedBroken],
         calls := [Call.GetItem (fetchInput userAB.Email "users")] }) := by
    rfl
  have hfetch : (FetchUser userAB.Email "users" memstore.client
      { store := memstore.usersTable [storedBroken],
        calls := [Call.GetItem (fetchInput userAB.Email "users")] }).1 =
      (none, some ErrorFailedToFetchRecord) := by
    rfl
  refine ⟨by rfl, by rfl, by rfl, by rfl, by rfl, hrun, ?_, ?_⟩
  · rw [hrun]
    decide
  · rw [hrun, hfetch]
    decide

end sample
